import Mathlib

/-!
# exereloc: conversion of an MS-DOS EXE file to a flat binary image

A shallow embedding of `src/exereloc.c`.  Files and memory buffers are lists
of bytes, `uint16_t` and `uint32_t` values are natural numbers reduced
explicitly where the C arithmetic wraps, and everything the C function `doit`
obtains from its surroundings (the source file, the byte order of the host,
the results of `malloc`, `fopen` and `fwrite`, the global `relseg`) is a field
of `Env`.  An access outside the allocated image buffer has no defined
result in C; the embedding makes it the explicit outcome `outOfBounds`.
-/

namespace Exereloc

/-- One byte of a file or of memory. -/
abbrev Byte := Fin 256

/-! ## Byte order of the host -/

/-- The two bytes, in address order, that hold the `uint16_t` value `x` in the
memory of the host. -/
def memBytes (bigEndian : Bool) (x : Nat) : Nat × Nat :=
  if bigEndian then (x / 256 % 256, x % 256) else (x % 256, x / 256 % 256)

/-- The `uint16_t` value the host reads from two bytes at consecutive
addresses. -/
def hostWord (bigEndian : Bool) (b0 b1 : Nat) : Nat :=
  if bigEndian then b0 * 256 + b1 else b0 + b1 * 256

/-- Function `endianize` of the source: `y` points at the bytes of `x`,
`z=y[1]; z<<=8; z|=y[0]`. -/
def endianize (bigEndian : Bool) (x : Nat) : Nat :=
  let y := memBytes bigEndian x
  let z := y.2
  let z := (z <<< 8) % 65536
  z ||| y.1

/-- Function `unendianize` of the source: `z` points at the bytes of the
result, `z[0]=x&0x00FF; z[1]=(x>>8)&0xFF`. -/
def unendianize (bigEndian : Bool) (x : Nat) : Nat :=
  let z0 := x &&& 0x00FF
  let z1 := (x >>> 8) &&& 0xFF
  hostWord bigEndian z0 z1

/-! ## Header and relocation records -/

/-- Record `struct MZ` of the source.  Every field holds the `uint16_t` value
as the host sees it, that is before `endianize`. -/
structure MZ where
  sig : Nat
  xbytes : Nat
  fullpages : Nat
  relocs : Nat
  hdrlen : Nat
  memrequire : Nat
  memrequest : Nat
  ss : Nat
  sp : Nat
  checksum : Nat
  ip : Nat
  cs : Nat
  relocptr : Nat
  ovl : Nat
  ovldat : Nat
  deriving DecidableEq

/-- Record `struct RL` of the source, fields as the host sees them. -/
structure RL where
  off : Nat
  seg : Nat
  deriving DecidableEq

/-- Value of `sizeof(struct MZ)`: fifteen packed `uint16_t` fields. -/
def sizeofMZ : Nat := 30

/-- The `uint16_t` the host finds at byte offset `i` of `bytes`. -/
def fieldAt (bigEndian : Bool) (bytes : List Byte) (i : Nat) : Nat :=
  hostWord bigEndian (bytes.getD i 0).val (bytes.getD (i + 1) 0).val

/-- The call `fread(&mz, sizeof(struct MZ), 1, file)` on a freshly opened file:
`none` when not even one whole record is there. -/
def readMZ (bigEndian : Bool) (file : List Byte) : Option MZ :=
  if file.length < sizeofMZ then none
  else some
    { sig := fieldAt bigEndian file 0
      xbytes := fieldAt bigEndian file 2
      fullpages := fieldAt bigEndian file 4
      relocs := fieldAt bigEndian file 6
      hdrlen := fieldAt bigEndian file 8
      memrequire := fieldAt bigEndian file 10
      memrequest := fieldAt bigEndian file 12
      ss := fieldAt bigEndian file 14
      sp := fieldAt bigEndian file 16
      checksum := fieldAt bigEndian file 18
      ip := fieldAt bigEndian file 20
      cs := fieldAt bigEndian file 22
      relocptr := fieldAt bigEndian file 24
      ovl := fieldAt bigEndian file 26
      ovldat := fieldAt bigEndian file 28 }

/-- The call `fread(rl, 4, n, file)` on the bytes that follow the file
position: the complete 4-byte records read, at most `n` of them. -/
def readRL (bigEndian : Bool) : List Byte → Nat → List RL
  | _, 0 => []
  | b0 :: b1 :: b2 :: b3 :: rest, n + 1 =>
      { off := hostWord bigEndian b0.val b1.val, seg := hostWord bigEndian b2.val b3.val }
        :: readRL bigEndian rest n
  | _, _ + 1 => []

/-! ## Surroundings and outcomes of one conversion -/

/-- Everything `doit` obtains from outside. -/
structure Env where
  /-- Byte order of the host. -/
  bigEndian : Bool
  /-- Content of the source file; `none` when `fopen(src, "rb")` fails. -/
  srcFile : Option (List Byte)
  /-- Whether `malloc` of the given size returns a non-null pointer. -/
  mallocOk : Nat → Bool
  /-- Content of freshly allocated memory, by offset in the image buffer. -/
  junk : Nat → Byte
  /-- Whether `fopen(tgt, "wb")` succeeds. -/
  tgtOpens : Bool
  /-- Number of bytes `fwrite` is able to put into the destination. -/
  tgtRoom : Nat
  /-- Global `relseg`: `-1` when no `-r` switch was given. -/
  relseg : Int

/-- The diagnostics `doit` and `main` print on the error stream. -/
inductive Diag where
  | openSrc
  | headerRead
  | notDosExe
  | tooLarge
  | tooLargeForMemory
  | startAddress
  | explicitStack
  | relocsWithIP
  | needSwitch
  | relocMemory
  | relocRead
  | shortRead
  | openTgt
  | shortWrite
  | invalidRelocation
  | usage
  deriving DecidableEq

/-- What one run of `doit` amounts to. -/
inductive Outcome where
  /-- Return of `code` after printing `msgs`; `dst` is `none` while the
  destination has not been opened, else the content it was left with. -/
  | ret (code : Nat) (msgs : List Diag) (dst : Option (List Byte))
  /-- An access outside the image buffer: the C program has no defined
  behaviour from here on. -/
  | outOfBounds
  deriving DecidableEq

/-! ## The function `doit` -/

/-- Lines 166 to 170: the `uint32_t` size `s`. -/
def imageSize (bigEndian : Bool) (mz : MZ) : Nat :=
  let s := endianize bigEndian mz.fullpages
  let s := (s <<< 9) % 2 ^ 32
  let s := if mz.xbytes ≠ 0 then (s + 2 ^ 32 - 512) % 2 ^ 32 else s
  let s := (s + endianize bigEndian mz.xbytes) % 2 ^ 32
  (s + 2 ^ 32 - (endianize bigEndian mz.hdrlen <<< 4)) % 2 ^ 32

/-- Line 173: the signature test. -/
def sigCheck (bigEndian : Bool) (mz : MZ) : Bool :=
  decide (endianize bigEndian mz.sig ≠ 0x5A4D)

/-- Line 180: the size test. -/
def sizeCheck (bigEndian : Bool) (mz : MZ) : Bool :=
  decide (imageSize bigEndian mz > 0xFFFF)

/-- Line 196: the start address test, `cs` and the first `ip` undecoded. -/
def entryCheck (bigEndian : Bool) (mz : MZ) : Bool :=
  decide (mz.cs ≠ 0) || (decide (mz.ip ≠ 0) && decide (endianize bigEndian mz.ip ≠ 0x0100))

/-- Line 203: the stack test, both fields undecoded. -/
def stackCheck (mz : MZ) : Bool :=
  decide (mz.ss ≠ 0) || decide (mz.sp ≠ 0)

/-- Lines 240 and 241: the records `fread(rl, 4, relocs, file)` delivers at file
offset `relocptr`. -/
def relocTable (bigEndian : Bool) (file : List Byte) (mz : MZ) : List RL :=
  readRL bigEndian (file.drop (endianize bigEndian mz.relocptr)) (endianize bigEndian mz.relocs)

/-- Lines 211 to 249: the relocation switch tests and the table read.  The
result is the pointer `rl`: `none` for the null pointer. -/
def loadRelocs (env : Env) (file : List Byte) (mz : MZ) : Except Outcome (Option (List RL)) :=
  if mz.relocs ≠ 0 then
    if mz.ip ≠ 0 then .error (.ret 7 [.relocsWithIP] none)
    else if env.relseg < 0 then .error (.ret 7 [.needSwitch] none)
    else if !env.mallocOk (endianize env.bigEndian mz.relocs <<< 2) then
      .error (.ret 6 [.relocMemory] none)
    else
      let rl := relocTable env.bigEndian file mz
      if rl.length < endianize env.bigEndian mz.relocs then .error (.ret 4 [.relocRead] none)
      else .ok (some rl)
  else .ok none

/-- Lines 254 to 256: the buffer after `fread(buf, 1, s, file)` at offset
`hdrlen<<4`; what the file does not supply stays as `malloc` left it. -/
def loadImage (env : Env) (file : List Byte) (mz : MZ) (s : Nat) : List Byte :=
  let got := (file.drop (endianize env.bigEndian mz.hdrlen <<< 4)).take s
  got ++ (List.range (s - got.length)).map (fun i => env.junk (got.length + i))

/-- Lines 275 to 277: the `uint32_t` offset `ro` of one table entry. -/
def relocOffset (bigEndian : Bool) (e : RL) : Nat :=
  let ro := endianize bigEndian e.seg
  let ro := (ro <<< 4) % 2 ^ 32
  (ro + endianize bigEndian e.off) % 2 ^ 32

/-- Lines 278 and 279: `*p=unendianize(endianize(*p)+relseg)` with `p` at
offset `ro` of `buf`.  The sum is a `long` and is taken over the integers (a
sum that wraps at the width of `long` has the same low 16 bits); the parameter
of `unendianize`, a `uint16_t`, keeps its low 16 bits. -/
def patch (bigEndian : Bool) (relseg : Int) (buf : List Byte) (ro : Nat) : List Byte :=
  let p := hostWord bigEndian (buf.getD ro 0).val (buf.getD (ro + 1) 0).val
  let v := unendianize bigEndian (((endianize bigEndian p : Int) + relseg) % 65536).toNat
  let m := memBytes bigEndian v
  (buf.set ro (Fin.ofNat m.1)).set (ro + 1) (Fin.ofNat m.2)

/-- Lines 271 to 280: the relocation loop over the table `rl`.  `none` when an
entry makes it touch a byte outside `buf`. -/
def applyRelocs (bigEndian : Bool) (relseg : Int) : List RL → List Byte → Option (List Byte)
  | [], buf => some buf
  | e :: rest, buf =>
      if relocOffset bigEndian e + 1 < buf.length then
        applyRelocs bigEndian relseg rest (patch bigEndian relseg buf (relocOffset bigEndian e))
      else none

/-- Lines 285 to 305: open the destination, write, return.  The source hands
`fwrite` the address `buf+start` and the `uint32_t` byte count without a test;
a count that reaches past the end of `buf` is an access outside the buffer. -/
def writeOut (env : Env) (comovr : Bool) (s e : Nat) (msgs : List Diag) (buf : List Byte) :
    Outcome :=
  if !env.tgtOpens then .ret 3 (msgs ++ [.openTgt]) none
  else
    let start := if comovr then 0x0100 else 0
    let count := if comovr then (s + 2 ^ 32 - 0x0100) % 2 ^ 32 else s
    if start + count ≤ buf.length then
      let r := min count env.tgtRoom
      let dst := (buf.drop start).take r
      if r < count then .ret 8 (msgs ++ [.shortWrite]) (some dst)
      else .ret e msgs (some dst)
    else .outOfBounds

/-- Lines 251 to 305: everything after the header tests. -/
def convert (env : Env) (file : List Byte) (mz : MZ) (s : Nat) (rl : Option (List RL)) :
    Outcome :=
  let comovr := decide (endianize env.bigEndian mz.ip = 0x0100)
  let buf := loadImage env file mz s
  let r := ((file.drop (endianize env.bigEndian mz.hdrlen <<< 4)).take s).length
  let e := if r < s then 4 else 0
  let msgs := if r < s then [Diag.shortRead] else []
  match rl with
  | some tbl =>
      match applyRelocs env.bigEndian env.relseg tbl buf with
      | some buf1 => writeOut env comovr s e msgs buf1
      | none => .outOfBounds
  | none => writeOut env comovr s e msgs buf

/-- Lines 211 to 305: the relocation table, the image and the output. -/
def relocateAndWrite (env : Env) (file : List Byte) (mz : MZ) (s : Nat) : Outcome :=
  match loadRelocs env file mz with
  | .error o => o
  | .ok rl => convert env file mz s rl

/-- Lines 166 to 305: what `doit` does once the header is in `mz`. -/
def afterHeader (env : Env) (file : List Byte) (mz : MZ) : Outcome :=
  let s := imageSize env.bigEndian mz
  if sigCheck env.bigEndian mz then .ret 5 [.notDosExe] none
  else if sizeCheck env.bigEndian mz then .ret 6 [.tooLarge] none
  else if !env.mallocOk s then .ret 6 [.tooLargeForMemory] none
  else if entryCheck env.bigEndian mz then .ret 7 [.startAddress] none
  else if stackCheck mz then .ret 7 [.explicitStack] none
  else relocateAndWrite env file mz s

/-- Function `doit` of the source. -/
def doit (env : Env) : Outcome :=
  match env.srcFile with
  | none => .ret 3 [.openSrc] none
  | some file =>
    match readMZ env.bigEndian file with
    | none => .ret 4 [.headerRead] none
    | some mz => afterHeader env file mz

/-! ## The notions of the specification

The definitions of this section follow the words of the specification, not the
source; the theorems compare the source with them. -/

/-- Derived image size as the specification words it, over the integers. -/
def specSize (pageCount bytesOnLastPage headerSizeParagraphs : Nat) : Int :=
  (pageCount : Int) * 512 - (if bytesOnLastPage ≠ 0 then 512 - (bytesOnLastPage : Int) else 0)
    - (headerSizeParagraphs : Int) * 16

/-- Little-endian 16-bit word at position `p` of a byte sequence. -/
def word16At (bytes : List Byte) (p : Nat) : Nat :=
  (bytes.getD p 0).val + 256 * (bytes.getD (p + 1) 0).val

/-- Derived image size `S` of a header, from its decoded fields. -/
def derivedSize (bigEndian : Bool) (mz : MZ) : Int :=
  specSize (endianize bigEndian mz.fullpages) (endianize bigEndian mz.xbytes)
    (endianize bigEndian mz.hdrlen)

/-- Byte of the file at which the image starts: `headerSizeParagraphs * 16`. -/
def imageStart (bigEndian : Bool) (mz : MZ) : Nat :=
  endianize bigEndian mz.hdrlen * 16

/-- The `S` bytes of the source from `headerSizeParagraphs * 16` on. -/
def sourceImage (bigEndian : Bool) (file : List Byte) (mz : MZ) : List Byte :=
  (file.drop (imageStart bigEndian mz)).take (derivedSize bigEndian mz).toNat

/-- Number of leading image bytes left out of the output:
`isComOverlay ? 0x100 : 0`. -/
def overlaySkip (bigEndian : Bool) (mz : MZ) : Nat :=
  if endianize bigEndian mz.ip = 0x0100 then 0x0100 else 0

/-- A valid header in the words of the specification: signature MZ, size `S`
within `0 .. 0xFFFF`, `initialCS = 0` and `initialSS = initialSP = 0`, all on
the decoded fields. -/
def ValidHeader (bigEndian : Bool) (mz : MZ) : Prop :=
  endianize bigEndian mz.sig = 0x5A4D ∧
  0 ≤ derivedSize bigEndian mz ∧ derivedSize bigEndian mz ≤ 0xFFFF ∧
  endianize bigEndian mz.cs = 0 ∧
  endianize bigEndian mz.ss = 0 ∧ endianize bigEndian mz.sp = 0

instance (bigEndian : Bool) (mz : MZ) : Decidable (ValidHeader bigEndian mz) := by
  unfold ValidHeader; infer_instance

/-- Linear position `segment * 16 + offset` of a relocation entry, from its
decoded fields. -/
def linearPos (bigEndian : Bool) (e : RL) : Nat :=
  endianize bigEndian e.seg * 16 + endianize bigEndian e.off

/-- The `count` records of a relocation table at byte `tableOffset` of the
file, each a little-endian pair of offset and segment, in table order. -/
def specEntries (file : List Byte) (tableOffset count : Nat) : List (Nat × Nat) :=
  (List.range count).map
    (fun i => (word16At file (tableOffset + 4 * i), word16At file (tableOffset + 4 * i + 2)))

/-- The decoded pair of offset and segment of a record of the table. -/
def decodeRL (bigEndian : Bool) (e : RL) : Nat × Nat :=
  (endianize bigEndian e.off, endianize bigEndian e.seg)

/-! ## A device of the proofs -/

/-- The patch of one entry written without reference to the byte order of the
host: the little-endian word at `ro` plus `relseg`, modulo 65536, stored
little-endian.  `patch_eq_patchLE` shows that `patch` computes this. -/
def patchLE (relseg : Int) (buf : List Byte) (ro : Nat) : List Byte :=
  let w := (((word16At buf ro : Nat) : Int) + relseg) % 65536
  (buf.set ro (Fin.ofNat (w.toNat % 256))).set (ro + 1) (Fin.ofNat (w.toNat / 256 % 256))

/-! ## The relocation engine of the specification -/

/-- Relocation in the words of the specification: the entries, pairs of
offset and segment, are taken in table order; each has the linear position
`p = segment*16 + offset`, the little-endian word of the image at `p` gets
`relseg` added modulo 65536 and is stored back little-endian; an entry with
`p + 1` not below the length of the image is out of range, result `none`. -/
def specApply (relseg : Int) : List (Nat × Nat) → List Byte → Option (List Byte)
  | [], image => some image
  | (offset, segment) :: rest, image =>
      if segment * 16 + offset + 1 < image.length then
        specApply relseg rest (patchLE relseg image (segment * 16 + offset))
      else none

/-! ## The function `main` and the switch `-r` -/

/-- The C library predicate `isspace` in the C locale. -/
def isspace (c : Char) : Bool :=
  c.toNat = 32 || (9 ≤ c.toNat && c.toNat ≤ 13)

/-- Value of a hexadecimal digit, `none` for any other character. -/
def hexDigit (c : Char) : Option Nat :=
  if 48 ≤ c.toNat ∧ c.toNat ≤ 57 then some (c.toNat - 48)
  else if 97 ≤ c.toNat ∧ c.toNat ≤ 102 then some (c.toNat - 87)
  else if 65 ≤ c.toNat ∧ c.toNat ≤ 70 then some (c.toNat - 55)
  else none

/-- The number a run of hexadecimal digits denotes. -/
def hexValue (digits : List Char) : Nat :=
  digits.foldl (fun a c => 16 * a + (hexDigit c).getD 0) 0

/-- The optional sign of the subject sequence of `strtol`: whether it is a
minus, and the characters after it. -/
def strtolSign : List Char → Bool × List Char
  | c :: rest => if c = '-' then (true, rest) else if c = '+' then (false, rest)
      else (false, c :: rest)
  | [] => (false, [])

/-- The optional `0x` or `0X` of the subject sequence of `strtol` in base 16,
taken only when a hexadecimal digit follows it. -/
def strtolRadixMark : List Char → List Char
  | z :: x :: d :: rest =>
      if z = '0' ∧ (x = 'x' ∨ x = 'X') ∧ (hexDigit d).isSome then d :: rest
      else z :: x :: d :: rest
  | s => s

/-- The C library call `strtol(s, 0, 16)` after the C standard, `long` ranging
over `-(longMax+1) .. longMax`: white space, an optional sign, an optional
`0x`, then the longest run of hexadecimal digits; the value is clamped to the
range of `long`, and it is 0 when there is no digit. -/
def strtol (longMax : Nat) (s : List Char) : Int :=
  let s := s.dropWhile isspace
  let sign := strtolSign s
  let digits := (strtolRadixMark sign.2).takeWhile (fun c => (hexDigit c).isSome)
  let v := hexValue digits
  if sign.1 then max (-(v : Int)) (-((longMax : Int) + 1)) else min (v : Int) (longMax : Int)

/-- One value `getopt(argc, argv, "r:")` delivers before it returns `-1`. -/
inductive Getopt where
  /-- The switch `-r`, with `optarg`. -/
  | r (optarg : List Char)
  /-- The value `?`: another switch, or `-r` without its argument. -/
  | other
  deriving DecidableEq

/-- The command line as `getopt` presents it: the values it delivers in turn,
and the number `argc - optind` of arguments that remain. -/
structure CmdLine where
  switches : List Getopt
  operands : Nat

/-- Lines 321 to 337: the `getopt` loop.  The result is the global `relseg`
at the end of the loop, or the return from inside it. -/
def switchLoop (longMax : Nat) : List Getopt → Int → Except Outcome Int
  | [], relseg => .ok relseg
  | .r optarg :: rest, _ =>
      let relseg := strtol longMax optarg
      if relseg < 0 then .error (.ret 1 [.invalidRelocation] none)
      else switchLoop longMax rest relseg
  | .other :: _, _ => .error (.ret 1 [.usage] none)

/-- Function `main` of the source.  The files behind `argv[optind]` and
`argv[optind+1]` are those of `world`; `relseg` starts at `-1`. -/
def main (longMax : Nat) (cmd : CmdLine) (world : Env) : Outcome :=
  match switchLoop longMax cmd.switches (-1) with
  | .error o => o
  | .ok relseg =>
      if cmd.operands ≠ 2 then .ret 2 [.usage] none
      else doit { world with relseg := relseg }

end Exereloc

/-!
# convert: a flat image wrapped into a loader stub

A shallow embedding of `src/convert.c`, with the conventions of the embedding
of `exereloc.c`.
-/

namespace Convert

open Exereloc (Byte word16At)

/-- Array `head` of the source, as initialised. -/
def head : List Byte :=
  [0xE9, 0x00, 0x00, 0x43, 0x6F, 0x6E, 0x76, 0x65,
   0x72, 0x74, 0x65, 0x64, 0x00, 0x00, 0x00, 0x00]

/-- Array `tail` of the source. -/
def tail : List Byte :=
  [0x00, 0x00, 0x00, 0x00, 0x00, 0x00, 0x00, 0x00, 0xE8, 0x00, 0x00, 0x5B, 0x50,
   0x8C, 0xC0, 0x05, 0x10, 0x00, 0x8B, 0x0E, 0x1E, 0x01, 0x03, 0xC8, 0x89, 0x4F,
   0xFB, 0x8B, 0x0E, 0x26, 0x01, 0x03, 0xC8, 0x89, 0x4F, 0xF7, 0x8B, 0x0E, 0x20,
   0x01, 0x89, 0x4F, 0xF9, 0x8B, 0x0E, 0x24, 0x01, 0x89, 0x4F, 0xF5, 0x8B, 0x3E,
   0x28, 0x01, 0x8B, 0x16, 0x18, 0x01, 0xB1, 0x04, 0xD3, 0xE2, 0x8B, 0x0E, 0x16,
   0x01, 0xE3, 0x1A, 0x26, 0xC5, 0xB5, 0x10, 0x01, 0x83, 0xC7, 0x04, 0x8C, 0xDD,
   0x26, 0x03, 0x2E, 0x18, 0x01, 0x83, 0xC5, 0x01, 0x03, 0xE8, 0x8E, 0xDD, 0x01,
   0x04, 0xE2, 0xE6, 0x0E, 0x1F, 0xBF, 0x00, 0x01, 0x8B, 0xF2, 0x81, 0xC6, 0x10,
   0x01, 0x8B, 0xCB, 0x2B, 0xCE, 0xF3, 0xA4, 0x58, 0xFA, 0x8E, 0x57, 0xFB, 0x8B,
   0x67, 0xF9, 0xFB, 0xFF, 0x6F, 0xF5]

/-- Everything `main` obtains from outside. -/
structure World where
  /-- Number of command line arguments, the program name included. -/
  argc : Nat
  /-- Content of the file `argv[1]`; `none` when `fopen` fails. -/
  srcFile : Option (List Byte)
  /-- Whether `fopen(argv[2], "wb")` succeeds. -/
  tgtOpens : Bool
  /-- Number of bytes the calls of `fwrite` are able to put into the output. -/
  tgtRoom : Nat

/-- The diagnostics `main` prints on the error stream. -/
inductive Diag where
  | usage
  | openSrc
  | tooLarge
  | shortRead
  | openTgt
  | shortHeader
  | shortProgram
  | shortFooter
  deriving DecidableEq

/-- Return of `code` after printing `msgs`; `dst` is `none` while the output has
not been opened, else the content it was left with. -/
inductive Outcome where
  | ret (code : Nat) (msgs : List Diag) (dst : Option (List Byte))
  deriving DecidableEq

/-- Lines 106 to 109: `head` with the bytes 1 and 2 patched for a file of `l`
bytes. -/
def patchedHead (l : Nat) : List Byte :=
  let b1 := (l + 21) &&& 0xFF
  let b2 := ((l + 21) >>> 8) &&& 0xFF
  (head.set 1 (Fin.ofNat b1)).set 2 (Fin.ofNat b2)

/-- Lines 110 to 134: the three calls of `fwrite`, the output being open. -/
def writeAll (w : World) (l : Nat) (msgs : List Diag) (buf : List Byte) : Outcome :=
  let hd := patchedHead l
  let e := min 16 w.tgtRoom
  if e < 16 then .ret 5 (msgs ++ [.shortHeader]) (some (hd.take e))
  else
    let e := min l (w.tgtRoom - 16)
    if e < l then .ret 6 (msgs ++ [.shortProgram]) (some (hd ++ buf.take e))
    else
      let e := min 123 (w.tgtRoom - 16 - l)
      if e < 123 then .ret 7 (msgs ++ [.shortFooter]) (some (hd ++ buf.take l ++ tail.take e))
      else .ret 0 msgs (some (hd ++ buf.take l ++ tail))

/-- Function `main` of the source.  The length `l` is that of the file, so the
call of `fread` for `l` bytes delivers them all. -/
def main (w : World) : Outcome :=
  if w.argc ≠ 3 then .ret 1 [.usage] none
  else
    match w.srcFile with
    | none => .ret 2 [.openSrc] none
    | some file =>
      let l := file.length
      if l > 65141 then .ret 3 [.tooLarge] none
      else
        let buf := file.take l
        let e := buf.length
        let msgs := if e < l then [Diag.shortRead] else []
        if !w.tgtOpens then .ret 4 (msgs ++ [.openTgt]) none
        else writeAll w l msgs buf

/-- A run in which the output opens and takes 65536 bytes. -/
def plainWorld (file : List Byte) : World :=
  { argc := 3, srcFile := some file, tgtOpens := true, tgtRoom := 65536 }

end Convert

namespace Exereloc

/-! ## Concrete inputs -/

/-- A host on which every allocation succeeds, the destination opens and has
room for 65536 bytes; fresh memory holds `0xAA`. -/
def plainEnv (bigEndian : Bool) (file : List Byte) (relseg : Int) : Env :=
  { bigEndian := bigEndian
    srcFile := some file
    mallocOk := fun _ => true
    junk := fun _ => 0xAA
    tgtOpens := true
    tgtRoom := 65536
    relseg := relseg }

/-- The 30 bytes of a header on disk, from the decoded values of the fields the
program looks at; the other fields are zero. -/
def headerBytes (sig xbytes fullpages relocs hdrlen ss sp ip cs relocptr : Nat) : List Byte :=
  [Fin.ofNat sig, Fin.ofNat (sig / 256), Fin.ofNat xbytes, Fin.ofNat (xbytes / 256),
   Fin.ofNat fullpages, Fin.ofNat (fullpages / 256), Fin.ofNat relocs, Fin.ofNat (relocs / 256),
   Fin.ofNat hdrlen, Fin.ofNat (hdrlen / 256), 0, 0, 0, 0,
   Fin.ofNat ss, Fin.ofNat (ss / 256), Fin.ofNat sp, Fin.ofNat (sp / 256), 0, 0,
   Fin.ofNat ip, Fin.ofNat (ip / 256), Fin.ofNat cs, Fin.ofNat (cs / 256),
   Fin.ofNat relocptr, Fin.ofNat (relocptr / 256), 0, 0, 0, 0]

/-- A 992-byte image whose byte at offset `i` is `i mod 256`. -/
def image992 : List Byte := (List.range 992).map (fun i => Fin.ofNat i)

/-- Scenario 1 of the specification: two full pages, a header of two
paragraphs, no relocations, entry point 0000:0000. -/
def scenario1File : List Byte :=
  headerBytes 0x5A4D 0 2 0 2 0 0 0 0 0 ++ [0, 0] ++ image992

/-- The header of `scenario1File` as a little-endian host holds it. -/
def scenario1MZ : MZ :=
  { sig := 0x5A4D, xbytes := 0, fullpages := 2, relocs := 0, hdrlen := 2, memrequire := 0,
    memrequest := 0, ss := 0, sp := 0, checksum := 0, ip := 0, cs := 0, relocptr := 0,
    ovl := 0, ovldat := 0 }

/-- A 34-byte image whose little-endian word at offset `0x10` is `0x0200`. -/
def image34 : List Byte :=
  List.replicate 16 0x90 ++ [0x00, 0x02] ++ List.replicate 16 0x90

/-- Scenario 3 of the specification: a 34-byte image behind a header of two
paragraphs, and at file offset 66 a table of one entry, offset `0x0010` in
segment `0x0000`. -/
def scenario3File : List Byte :=
  headerBytes 0x5A4D 66 1 1 2 0 0 0 0 66 ++ [0, 0] ++ image34 ++ [0x10, 0, 0, 0]

/-- The header of `scenario3File` as a little-endian host holds it. -/
def scenario3MZ : MZ :=
  { sig := 0x5A4D, xbytes := 66, fullpages := 1, relocs := 1, hdrlen := 2, memrequire := 0,
    memrequest := 0, ss := 0, sp := 0, checksum := 0, ip := 0, cs := 0, relocptr := 66,
    ovl := 0, ovldat := 0 }

/-- As `scenario3File`, with the entry of the table written twice. -/
def twiceFile : List Byte :=
  headerBytes 0x5A4D 66 1 2 2 0 0 0 0 66 ++ [0, 0] ++ image34 ++ [0x10, 0, 0, 0, 0x10, 0, 0, 0]

/-- The header of `twiceFile` as a little-endian host holds it. -/
def twiceMZ : MZ :=
  { sig := 0x5A4D, xbytes := 66, fullpages := 1, relocs := 2, hdrlen := 2, memrequire := 0,
    memrequest := 0, ss := 0, sp := 0, checksum := 0, ip := 0, cs := 0, relocptr := 66,
    ovl := 0, ovldat := 0 }

/-- What the conversion of `twiceFile` with `relseg = 0x1000` writes. -/
def twiceOutput : List Byte :=
  List.replicate 16 0x90 ++ [0x00, 0x22] ++ List.replicate 16 0x90

/-- Scenario 2 of the specification: `scenario1File` with entry point
0000:0100. -/
def scenario2File : List Byte :=
  headerBytes 0x5A4D 0 2 0 2 0 0 0x0100 0 0 ++ [0, 0] ++ image992

/-- The header of `scenario2File` as a little-endian host holds it. -/
def scenario2MZ : MZ :=
  { sig := 0x5A4D, xbytes := 0, fullpages := 2, relocs := 0, hdrlen := 2, memrequire := 0,
    memrequest := 0, ss := 0, sp := 0, checksum := 0, ip := 0x0100, cs := 0, relocptr := 0,
    ovl := 0, ovldat := 0 }

/-- A file of 32 bytes: a header of two paragraphs with entry point 0000:0100
whose page fields give the derived size `S = 512 - (512 - 32) - 32 = 0`. -/
def comEmptyFile : List Byte :=
  headerBytes 0x5A4D 32 1 0 2 0 0 0x0100 0 0 ++ [0, 0]

/-- The header of `comEmptyFile` as a little-endian host holds it. -/
def comEmptyMZ : MZ :=
  { sig := 0x5A4D, xbytes := 32, fullpages := 1, relocs := 0, hdrlen := 2, memrequire := 0,
    memrequest := 0, ss := 0, sp := 0, checksum := 0, ip := 0x0100, cs := 0, relocptr := 0,
    ovl := 0, ovldat := 0 }

/-- A header alone, of derived size `S = 129*512 - (512 - 31) - 32 = 0xFFFF`. -/
def maxSizeFile : List Byte := headerBytes 0x5A4D 31 129 0 2 0 0 0 0 0

/-- The header of `maxSizeFile` as a little-endian host holds it. -/
def maxSizeMZ : MZ :=
  { sig := 0x5A4D, xbytes := 31, fullpages := 129, relocs := 0, hdrlen := 2, memrequire := 0,
    memrequest := 0, ss := 0, sp := 0, checksum := 0, ip := 0, cs := 0, relocptr := 0,
    ovl := 0, ovldat := 0 }

/-- A header alone, of derived size `S = 129*512 - (512 - 32) - 32 = 0x10000`. -/
def overSizeFile : List Byte := headerBytes 0x5A4D 32 129 0 2 0 0 0 0 0

/-- The header of `overSizeFile` as a little-endian host holds it. -/
def overSizeMZ : MZ :=
  { sig := 0x5A4D, xbytes := 32, fullpages := 129, relocs := 0, hdrlen := 2, memrequire := 0,
    memrequest := 0, ss := 0, sp := 0, checksum := 0, ip := 0, cs := 0, relocptr := 0,
    ovl := 0, ovldat := 0 }

/-- A header alone whose header area, 64 paragraphs, exceeds its one page of 16
bytes: `S = 512 - (512 - 16) - 1024 = -1008`. -/
def negSizeFile : List Byte := headerBytes 0x5A4D 16 1 0 64 0 0 0 0 0

/-- The header of `negSizeFile` as a little-endian host holds it. -/
def negSizeMZ : MZ :=
  { sig := 0x5A4D, xbytes := 16, fullpages := 1, relocs := 0, hdrlen := 64, memrequire := 0,
    memrequest := 0, ss := 0, sp := 0, checksum := 0, ip := 0, cs := 0, relocptr := 0,
    ovl := 0, ovldat := 0 }

/-- A header alone with the bytes `Z`, `M` for a signature, and in which the
size is out of range (`S = 0x10000`), `cs`, `ss` and `sp` are nonzero, the entry
offset is `0x0123` and a relocation is announced. -/
def zmFile : List Byte := headerBytes 0x4D5A 32 129 1 2 7 8 0x0123 5 0

/-- The header of `zmFile` as a little-endian host holds it. -/
def zmMZ : MZ :=
  { sig := 0x4D5A, xbytes := 32, fullpages := 129, relocs := 1, hdrlen := 2, memrequire := 0,
    memrequest := 0, ss := 7, sp := 8, checksum := 0, ip := 0x0123, cs := 5, relocptr := 0,
    ovl := 0, ovldat := 0 }

/-- A header alone, signature MZ and `S = 0`, with `ss = 7` and `cs = 5`. -/
def stackAndCsFile : List Byte := headerBytes 0x5A4D 32 1 0 2 7 0 0 5 0

/-- A header alone, signature MZ, with `ss = 7` and `S = 0x10000`. -/
def stackAndOverSizeFile : List Byte := headerBytes 0x5A4D 32 129 0 2 7 0 0 0 0

/-- A header alone with bytes `Z`, `M` for a signature, `S = 0` and `ss = 7`. -/
def stackAndZmFile : List Byte := headerBytes 0x4D5A 32 1 0 2 7 0 0 0 0

/-- A header alone, signature MZ, `S = 0`, entry point 0000:0100, `sp = 8`, and
three relocations announced. -/
def stackFile : List Byte := headerBytes 0x5A4D 32 1 3 2 0 8 0x0100 0 0

/-- The header of `stackFile` as a big-endian host holds it: the two bytes of
every field the other way round. -/
def stackMZBigEndian : MZ :=
  { sig := 0x4D5A, xbytes := 0x2000, fullpages := 0x0100, relocs := 0x0300, hdrlen := 0x0200,
    memrequire := 0, memrequest := 0, ss := 0, sp := 0x0800, checksum := 0, ip := 0x0001,
    cs := 0, relocptr := 0, ovl := 0, ovldat := 0 }

/-- A header alone, signature MZ, `S = 0`, `cs = 0` and entry offset `0x0001`:
on disk the bytes `01 00`, which a big-endian host holds as `0x0100`. -/
def entryOneFile : List Byte := headerBytes 0x5A4D 32 1 0 2 0 0 0x0001 0 0

/-- The header of `entryOneFile` as a big-endian host holds it. -/
def entryOneMZBigEndian : MZ :=
  { sig := 0x4D5A, xbytes := 0x2000, fullpages := 0x0100, relocs := 0, hdrlen := 0x0200,
    memrequire := 0, memrequest := 0, ss := 0, sp := 0, checksum := 0, ip := 0x0100,
    cs := 0, relocptr := 0, ovl := 0, ovldat := 0 }

/-- The header of `scenario3File` as a big-endian host holds it. -/
def scenario3MZBigEndian : MZ :=
  { sig := 0x4D5A, xbytes := 0x4200, fullpages := 0x0100, relocs := 0x0100, hdrlen := 0x0200,
    memrequire := 0, memrequest := 0, ss := 0, sp := 0, checksum := 0, ip := 0, cs := 0,
    relocptr := 0x4200, ovl := 0, ovldat := 0 }

/-- As `scenario3File`, with the entry of the table at offset `0x21`: the last
byte of the 34-byte image. -/
def lastByteFile : List Byte :=
  headerBytes 0x5A4D 66 1 1 2 0 0 0 0 66 ++ [0, 0] ++ image34 ++ [0x21, 0, 0, 0]

/-- The first 28 bytes of `scenario1File`: the header up to and including the
overlay number, cut before the fifteenth field of `struct MZ`. -/
def header28File : List Byte := scenario1File.take 28

/-- A source cut short in the image, entry point 0000:0100: a header of two
paragraphs with `S = 1024 - (512 - 32) - 32 = 512`, followed by the first 128
bytes of the image only. -/
def shortComFile : List Byte :=
  headerBytes 0x5A4D 32 2 0 2 0 0 0x0100 0 0 ++ [0, 0] ++ image992.take 128

/-- The header of `shortComFile` as a little-endian host holds it. -/
def shortComMZ : MZ :=
  { sig := 0x5A4D, xbytes := 32, fullpages := 2, relocs := 0, hdrlen := 2, memrequire := 0,
    memrequest := 0, ss := 0, sp := 0, checksum := 0, ip := 0x0100, cs := 0, relocptr := 0,
    ovl := 0, ovldat := 0 }

/-- A source cut short in the image, with a relocation: a header of three
paragraphs with `S = 512 - (512 - 82) - 48 = 34`, the table of one entry
(offset `0x0010`, segment 0) at file offset 32, and from file offset 48 the first
20 bytes of `image34` only. -/
def shortRelocFile : List Byte :=
  headerBytes 0x5A4D 82 1 1 3 0 0 0 0 32 ++ [0, 0] ++ [0x10, 0, 0, 0] ++
    List.replicate 12 0 ++ image34.take 20

/-- The header of `shortRelocFile` as a little-endian host holds it. -/
def shortRelocMZ : MZ :=
  { sig := 0x5A4D, xbytes := 82, fullpages := 1, relocs := 1, hdrlen := 3, memrequire := 0,
    memrequest := 0, ss := 0, sp := 0, checksum := 0, ip := 0, cs := 0, relocptr := 32,
    ovl := 0, ovldat := 0 }

/-- A 34-byte image that starts with the bytes `01 00 00`. -/
def image34Carry : List Byte := [1, 0, 0] ++ List.replicate 31 0x90

/-- A source with the header of `twiceFile`, the image `image34Carry` and a
table of two entries at the linear positions 0 and 1, in this order. -/
def orderFile : List Byte :=
  headerBytes 0x5A4D 66 1 2 2 0 0 0 0 66 ++ [0, 0] ++ image34Carry ++ [0, 0, 0, 0, 1, 0, 0, 0]

/-- As `orderFile`, the two entries of the table in the other order. -/
def orderFileSwapped : List Byte :=
  headerBytes 0x5A4D 66 1 2 2 0 0 0 0 66 ++ [0, 0] ++ image34Carry ++ [1, 0, 0, 0, 0, 0, 0, 0]

/-! ## Byte order and size arithmetic -/

theorem shl8_or (a b : Nat) (ha : a < 256) (hb : b < 256) :
    ((a <<< 8) % 65536) ||| b = a * 256 + b := by
  have h1 : a <<< 8 = 2 ^ 8 * a := by rw [Nat.shiftLeft_eq]; ring
  have h2 : (a <<< 8) % 65536 = 2 ^ 8 * a := by rw [h1]; omega
  rw [h2, ← Nat.mul_add_lt_is_or (by simpa using hb) a]; ring

theorem endianize_eq (be : Bool) (x : Nat) :
    endianize be x = if be then (x % 256) * 256 + x / 256 % 256
      else (x / 256 % 256) * 256 + x % 256 := by
  unfold endianize memBytes
  cases be <;> simp only [Bool.false_eq_true, if_false, if_true]
  · exact shl8_or _ _ (Nat.mod_lt _ (by decide)) (Nat.mod_lt _ (by decide))
  · exact shl8_or _ _ (Nat.mod_lt _ (by decide)) (Nat.mod_lt _ (by decide))

theorem endianize_hostWord (be : Bool) (b0 b1 : Nat) (h0 : b0 < 256) (h1 : b1 < 256) :
    endianize be (hostWord be b0 b1) = b0 + 256 * b1 := by
  rw [endianize_eq]; unfold hostWord
  cases be <;> simp only [Bool.false_eq_true, if_false, if_true] <;> omega

theorem endianize_lt (be : Bool) (x : Nat) : endianize be x < 65536 := by
  rw [endianize_eq]; split <;> omega

theorem endianize_eq_zero_iff (be : Bool) (x : Nat) (hx : x < 65536) :
    endianize be x = 0 ↔ x = 0 := by
  rw [endianize_eq]; split <;> omega

theorem unendianize_eq (be : Bool) (x : Nat) :
    unendianize be x = hostWord be (x % 256) (x / 256 % 256) := by
  unfold unendianize
  have h1 : x &&& 0x00FF = x % 256 := Nat.and_pow_two_sub_one_eq_mod x 8
  have h2 : (x >>> 8) &&& 0xFF = x / 256 % 256 := by
    rw [Nat.shiftRight_eq_div_pow]; exact Nat.and_pow_two_sub_one_eq_mod _ 8
  rw [h1, h2]

theorem hostWord_lt (be : Bool) (b0 b1 : Nat) (h0 : b0 < 256) (h1 : b1 < 256) :
    hostWord be b0 b1 < 65536 := by
  unfold hostWord; split <;> omega

theorem memBytes_hostWord (be : Bool) (b0 b1 : Nat) (h0 : b0 < 256) (h1 : b1 < 256) :
    memBytes be (hostWord be b0 b1) = (b0, b1) := by
  unfold memBytes hostWord
  cases be <;> simp only [Bool.false_eq_true, if_false, if_true, Prod.mk.injEq] <;> omega

theorem fieldAt_lt (be : Bool) (f : List Byte) (i : Nat) : fieldAt be f i < 65536 :=
  hostWord_lt be _ _ (Fin.isLt _) (Fin.isLt _)

theorem endianize_fieldAt (be : Bool) (f : List Byte) (i : Nat) :
    endianize be (fieldAt be f i) = word16At f i :=
  endianize_hostWord be _ _ (Fin.isLt _) (Fin.isLt _)

theorem imageSize_emod (be : Bool) (mz : MZ) (hx : mz.xbytes < 65536) :
    (imageSize be mz : Int) =
      specSize (endianize be mz.fullpages) (endianize be mz.xbytes) (endianize be mz.hdrlen)
        % 4294967296 := by
  have hpc := endianize_lt be mz.fullpages
  have hxb := endianize_lt be mz.xbytes
  have hhl := endianize_lt be mz.hdrlen
  have hz := endianize_eq_zero_iff be mz.xbytes hx
  unfold imageSize specSize
  simp only [Nat.shiftLeft_eq, Nat.reducePow]
  generalize endianize be mz.fullpages = pc at *
  generalize endianize be mz.xbytes = xb at *
  generalize endianize be mz.hdrlen = hl at *
  by_cases h0 : mz.xbytes = 0
  · have : xb = 0 := hz.mpr h0
    subst this
    simp only [h0, ne_eq, not_true_eq_false, if_false]
    omega
  · have : xb ≠ 0 := fun h => h0 (hz.mp h)
    simp only [h0, this, ne_eq, not_false_eq_true, if_true]
    omega

theorem sizeCheck_eq_false_iff (be : Bool) (mz : MZ) (hx : mz.xbytes < 65536) :
    sizeCheck be mz = false ↔
      0 ≤ specSize (endianize be mz.fullpages) (endianize be mz.xbytes) (endianize be mz.hdrlen)
      ∧ specSize (endianize be mz.fullpages) (endianize be mz.xbytes) (endianize be mz.hdrlen)
          ≤ 0xFFFF := by
  have h := imageSize_emod be mz hx
  have hpc := endianize_lt be mz.fullpages
  have hxb := endianize_lt be mz.xbytes
  have hhl := endianize_lt be mz.hdrlen
  have hlo : -(1114112 : Int) ≤
      specSize (endianize be mz.fullpages) (endianize be mz.xbytes) (endianize be mz.hdrlen) := by
    unfold specSize; split <;> omega
  have hhi : specSize (endianize be mz.fullpages) (endianize be mz.xbytes) (endianize be mz.hdrlen)
      ≤ 33618943 := by
    unfold specSize; split <;> omega
  simp only [sizeCheck, decide_eq_false_iff_not, not_lt, gt_iff_lt]
  generalize specSize _ _ _ = S at *
  omega

theorem imageSize_eq_toNat (be : Bool) (mz : MZ) (hx : mz.xbytes < 65536)
    (h0 : 0 ≤ specSize (endianize be mz.fullpages) (endianize be mz.xbytes) (endianize be mz.hdrlen))
    (h1 : specSize (endianize be mz.fullpages) (endianize be mz.xbytes) (endianize be mz.hdrlen)
          ≤ 0xFFFF) :
    imageSize be mz =
      (specSize (endianize be mz.fullpages) (endianize be mz.xbytes)
        (endianize be mz.hdrlen)).toNat := by
  have h := imageSize_emod be mz hx
  generalize specSize _ _ _ = S at *
  omega

/-- Fields of a header that was read from a file are 16-bit values. -/
theorem readMZ_lt (be : Bool) (f : List Byte) (mz : MZ) (h : readMZ be f = some mz) :
    mz.sig < 65536 ∧ mz.xbytes < 65536 ∧ mz.fullpages < 65536 ∧ mz.relocs < 65536 ∧
    mz.hdrlen < 65536 ∧ mz.ss < 65536 ∧ mz.sp < 65536 ∧ mz.ip < 65536 ∧ mz.cs < 65536 ∧
    mz.relocptr < 65536 := by
  unfold readMZ at h
  split at h
  · exact absurd h (by simp)
  · cases h
    exact ⟨fieldAt_lt .., fieldAt_lt .., fieldAt_lt .., fieldAt_lt .., fieldAt_lt ..,
      fieldAt_lt .., fieldAt_lt .., fieldAt_lt .., fieldAt_lt .., fieldAt_lt ..⟩

/-- The decoded fields of a header that was read are the little-endian words
of the file at the offsets of the on-disk layout. -/
theorem readMZ_decoded (be : Bool) (f : List Byte) (mz : MZ) (h : readMZ be f = some mz) :
    endianize be mz.sig = word16At f 0 ∧ endianize be mz.xbytes = word16At f 2 ∧
    endianize be mz.fullpages = word16At f 4 ∧ endianize be mz.relocs = word16At f 6 ∧
    endianize be mz.hdrlen = word16At f 8 ∧ endianize be mz.ss = word16At f 14 ∧
    endianize be mz.sp = word16At f 16 ∧ endianize be mz.ip = word16At f 20 ∧
    endianize be mz.cs = word16At f 22 ∧ endianize be mz.relocptr = word16At f 24 := by
  unfold readMZ at h
  split at h
  · exact absurd h (by simp)
  · cases h
    exact ⟨endianize_fieldAt .., endianize_fieldAt .., endianize_fieldAt ..,
      endianize_fieldAt .., endianize_fieldAt .., endianize_fieldAt .., endianize_fieldAt ..,
      endianize_fieldAt .., endianize_fieldAt .., endianize_fieldAt ..⟩

theorem readMZ_isSome_iff (be : Bool) (f : List Byte) :
    (readMZ be f).isSome ↔ sizeofMZ ≤ f.length := by
  unfold readMZ; split <;> simp <;> omega

/-! ## Unfolding `doit` -/

theorem doit_of_header (env : Env) (f : List Byte) (mz : MZ)
    (hsrc : env.srcFile = some f) (hmz : readMZ env.bigEndian f = some mz) :
    doit env = afterHeader env f mz := by
  unfold doit
  simp only [hsrc, hmz]

theorem sigCheck_eq_false_iff (be : Bool) (mz : MZ) :
    sigCheck be mz = false ↔ endianize be mz.sig = 0x5A4D := by
  simp [sigCheck]

theorem entryCheck_eq_true_iff (be : Bool) (mz : MZ) (hcs : mz.cs < 65536) (hip : mz.ip < 65536) :
    entryCheck be mz = true ↔
      endianize be mz.cs ≠ 0 ∨ (endianize be mz.ip ≠ 0 ∧ endianize be mz.ip ≠ 0x0100) := by
  have h1 := endianize_eq_zero_iff be mz.cs hcs
  have h2 := endianize_eq_zero_iff be mz.ip hip
  simp only [entryCheck, Bool.or_eq_true, Bool.and_eq_true, decide_eq_true_eq, ne_eq, h1, h2]

theorem stackCheck_eq_true_iff (be : Bool) (mz : MZ) (hss : mz.ss < 65536) (hsp : mz.sp < 65536) :
    stackCheck mz = true ↔ endianize be mz.ss ≠ 0 ∨ endianize be mz.sp ≠ 0 := by
  have h1 := endianize_eq_zero_iff be mz.ss hss
  have h2 := endianize_eq_zero_iff be mz.sp hsp
  simp only [stackCheck, Bool.or_eq_true, decide_eq_true_eq, ne_eq, h1, h2]

theorem loadImage_full (env : Env) (f : List Byte) (mz : MZ) (s : Nat)
    (h : endianize env.bigEndian mz.hdrlen * 16 + s ≤ f.length) :
    loadImage env f mz s = (f.drop (endianize env.bigEndian mz.hdrlen * 16)).take s
    ∧ ((f.drop (endianize env.bigEndian mz.hdrlen <<< 4)).take s).length = s := by
  have hs : endianize env.bigEndian mz.hdrlen <<< 4 = endianize env.bigEndian mz.hdrlen * 16 := by
    rw [Nat.shiftLeft_eq]
  have hl : ((f.drop (endianize env.bigEndian mz.hdrlen * 16)).take s).length = s := by
    rw [List.length_take, List.length_drop]; omega
  unfold loadImage
  rw [hs]
  simp only [hl, Nat.sub_self, List.range_zero, List.map_nil, List.append_nil, and_self]

theorem loadImage_length (env : Env) (f : List Byte) (mz : MZ) (s : Nat) :
    (loadImage env f mz s).length = s := by
  unfold loadImage
  simp only [List.length_append, List.length_map, List.length_range, List.length_take,
    List.length_drop]
  omega

theorem writeOut_flat (env : Env) (s e : Nat) (msgs : List Diag) (buf : List Byte)
    (hlen : buf.length = s) (hopen : env.tgtOpens = true) (hroom : s ≤ env.tgtRoom) :
    writeOut env false s e msgs buf = .ret e msgs (some buf) := by
  unfold writeOut
  simp only [hopen, Bool.not_true, Bool.false_eq_true, if_false, Nat.zero_add, hlen, le_refl,
    if_true, Nat.min_eq_left hroom, Nat.lt_irrefl, List.drop_zero]
  rw [← hlen, List.take_length]

/-! ## The relocation loop -/

theorem patch_eq_patchLE (be : Bool) (relseg : Int) (buf : List Byte) (ro : Nat) :
    patch be relseg buf ro = patchLE relseg buf ro := by
  unfold patch patchLE
  simp only
  rw [endianize_hostWord be _ _ (Fin.isLt _) (Fin.isLt _), unendianize_eq,
    memBytes_hostWord be _ _ (Nat.mod_lt _ (by decide)) (Nat.mod_lt _ (by decide))]
  rfl

theorem patch_length (be : Bool) (relseg : Int) (buf : List Byte) (ro : Nat) :
    (patch be relseg buf ro).length = buf.length := by
  rw [patch_eq_patchLE]; simp [patchLE]

theorem patch_getD_of_ne (be : Bool) (relseg : Int) (buf : List Byte) (ro i : Nat)
    (h0 : i ≠ ro) (h1 : i ≠ ro + 1) :
    (patch be relseg buf ro).getD i 0 = buf.getD i 0 := by
  rw [patch_eq_patchLE]
  simp only [patchLE, List.getD_eq_getElem?_getD]
  rw [List.getElem?_set_ne (Ne.symm h1), List.getElem?_set_ne (Ne.symm h0)]

theorem word16At_patch_of_disjoint (be : Bool) (relseg : Int) (buf : List Byte) (ro q : Nat)
    (h : q + 1 < ro ∨ ro + 1 < q) :
    word16At (patch be relseg buf ro) q = word16At buf q := by
  unfold word16At
  rw [patch_getD_of_ne be relseg buf ro q (by omega) (by omega),
    patch_getD_of_ne be relseg buf ro (q + 1) (by omega) (by omega)]

theorem word16At_lt (buf : List Byte) (q : Nat) : word16At buf q < 65536 := by
  unfold word16At
  have h0 := (buf.getD q 0).isLt
  have h1 := (buf.getD (q + 1) 0).isLt
  omega

theorem word16At_patch_self (be : Bool) (relseg : Int) (buf : List Byte) (ro : Nat)
    (h : ro + 1 < buf.length) :
    ((word16At (patch be relseg buf ro) ro : Nat) : Int) =
      (((word16At buf ro : Nat) : Int) + relseg) % 65536 := by
  rw [patch_eq_patchLE]
  have hw0 : 0 ≤ (((word16At buf ro : Nat) : Int) + relseg) % 65536 :=
    Int.emod_nonneg _ (by decide)
  have hw1 : (((word16At buf ro : Nat) : Int) + relseg) % 65536 < 65536 :=
    Int.emod_lt_of_pos _ (by decide)
  generalize hw : (((word16At buf ro : Nat) : Int) + relseg) % 65536 = w at *
  have e0 : (patchLE relseg buf ro).getD ro 0 = Fin.ofNat (w.toNat % 256) := by
    simp only [patchLE, hw, List.getD_eq_getElem?_getD]
    rw [List.getElem?_set_ne (by omega), List.getElem?_set_self (by omega)]
    rfl
  have e1 : (patchLE relseg buf ro).getD (ro + 1) 0 = Fin.ofNat (w.toNat / 256 % 256) := by
    simp only [patchLE, hw, List.getD_eq_getElem?_getD]
    rw [List.getElem?_set_self (by simp; omega)]
    rfl
  unfold word16At
  rw [e0, e1]
  simp only [Fin.ofNat, Nat.succ_eq_add_one]
  omega

theorem relocOffset_eq (be : Bool) (e : RL) :
    relocOffset be e = linearPos be e := by
  have h1 := endianize_lt be e.seg
  have h2 := endianize_lt be e.off
  unfold relocOffset linearPos
  simp only [Nat.shiftLeft_eq, Nat.reducePow]
  omega

theorem applyRelocs_append (be : Bool) (relseg : Int) (t1 t2 : List RL) (buf : List Byte) :
    applyRelocs be relseg (t1 ++ t2) buf =
      (applyRelocs be relseg t1 buf).bind (applyRelocs be relseg t2) := by
  induction t1 generalizing buf with
  | nil => simp [applyRelocs]
  | cons e rest ih =>
    simp only [List.cons_append, applyRelocs]
    split
    · exact ih _
    · rfl

/-- A table whose entries all lie inside the buffer is applied to the end, the
length stays, and a word that no entry overlaps keeps its value. -/
theorem applyRelocs_frame (be : Bool) (relseg : Int) (tbl : List RL) (buf : List Byte)
    (hin : ∀ x ∈ tbl, relocOffset be x + 1 < buf.length) :
    ∃ out, applyRelocs be relseg tbl buf = some out ∧ out.length = buf.length ∧
      ∀ q, (∀ x ∈ tbl, q + 1 < relocOffset be x ∨ relocOffset be x + 1 < q) →
        word16At out q = word16At buf q := by
  induction tbl generalizing buf with
  | nil => exact ⟨buf, rfl, rfl, fun _ _ => rfl⟩
  | cons e rest ih =>
    have he := hin e (List.mem_cons_self _ _)
    have hrest : ∀ x ∈ rest, relocOffset be x + 1 < (patch be relseg buf (relocOffset be e)).length := by
      intro x hx
      rw [patch_length]
      exact hin x (List.mem_cons_of_mem _ hx)
    obtain ⟨out, h1, h2, h3⟩ := ih _ hrest
    refine ⟨out, ?_, ?_, ?_⟩
    · simp only [applyRelocs, he, if_true, h1]
    · rw [h2, patch_length]
    · intro q hq
      rw [h3 q (fun x hx => hq x (List.mem_cons_of_mem _ hx))]
      exact word16At_patch_of_disjoint be relseg buf _ q (hq e (List.mem_cons_self _ _))

/-- The word an entry addresses, when no other entry of the table overlaps it. -/
theorem applyRelocs_word (be : Bool) (relseg : Int) (pre post : List RL) (e : RL)
    (buf : List Byte)
    (hin : ∀ x ∈ pre ++ e :: post, relocOffset be x + 1 < buf.length)
    (hdis : ∀ x ∈ pre ++ post,
      relocOffset be e + 1 < relocOffset be x ∨ relocOffset be x + 1 < relocOffset be e) :
    ∃ out, applyRelocs be relseg (pre ++ e :: post) buf = some out ∧ out.length = buf.length ∧
      ((word16At out (relocOffset be e) : Nat) : Int) =
        (((word16At buf (relocOffset be e) : Nat) : Int) + relseg) % 65536 := by
  obtain ⟨b1, h1, l1, w1⟩ := applyRelocs_frame be relseg pre buf
    (fun x hx => hin x (List.mem_append_left _ hx))
  have he : relocOffset be e + 1 < b1.length := by
    rw [l1]; exact hin e (List.mem_append_right _ (List.mem_cons_self _ _))
  obtain ⟨b2, h2, l2, w2⟩ := applyRelocs_frame be relseg post
    (patch be relseg b1 (relocOffset be e))
    (fun x hx => by
      rw [patch_length, l1]
      exact hin x (List.mem_append_right _ (List.mem_cons_of_mem _ hx)))
  refine ⟨b2, ?_, ?_, ?_⟩
  · rw [applyRelocs_append, h1]
    simp only [Option.some_bind, applyRelocs, he, if_true, h2]
  · rw [l2, patch_length, l1]
  · rw [w2 _ (fun x hx => hdis x (List.mem_append_right _ hx)),
      word16At_patch_self be relseg b1 _ he,
      w1 _ (fun x hx => hdis x (List.mem_append_left _ hx))]

theorem word16At_patchLE_of_disjoint (relseg : Int) (buf : List Byte) (ro q : Nat)
    (h : q + 1 < ro ∨ ro + 1 < q) :
    word16At (patchLE relseg buf ro) q = word16At buf q := by
  rw [← patch_eq_patchLE false]
  exact word16At_patch_of_disjoint false relseg buf ro q h

theorem patchLE_def (relseg : Int) (buf : List Byte) (ro : Nat) :
    patchLE relseg buf ro =
      (buf.set ro (Fin.ofNat (((((word16At buf ro : Nat) : Int) + relseg) % 65536).toNat % 256))).set
        (ro + 1)
        (Fin.ofNat (((((word16At buf ro : Nat) : Int) + relseg) % 65536).toNat / 256 % 256)) :=
  rfl

/-- Patches of two windows that share no byte commute. -/
theorem patchLE_comm (relseg : Int) (buf : List Byte) (p q : Nat)
    (h : p + 1 < q ∨ q + 1 < p) :
    patchLE relseg (patchLE relseg buf p) q = patchLE relseg (patchLE relseg buf q) p := by
  have hq := word16At_patchLE_of_disjoint relseg buf p q (by omega)
  have hp := word16At_patchLE_of_disjoint relseg buf q p (by omega)
  rw [patchLE_def relseg (patchLE relseg buf p) q, patchLE_def relseg (patchLE relseg buf q) p,
    hq, hp, patchLE_def relseg buf p, patchLE_def relseg buf q]
  generalize (Fin.ofNat (((((word16At buf q : Nat) : Int) + relseg) % 65536).toNat % 256) : Byte) = c
  generalize (Fin.ofNat (((((word16At buf q : Nat) : Int) + relseg) % 65536).toNat / 256 % 256) : Byte) = d
  generalize (Fin.ofNat (((((word16At buf p : Nat) : Int) + relseg) % 65536).toNat % 256) : Byte) = a
  generalize (Fin.ofNat (((((word16At buf p : Nat) : Int) + relseg) % 65536).toNat / 256 % 256) : Byte) = b
  have hpq : p ≠ q := by omega
  have hpq1 : p ≠ q + 1 := by omega
  have hp1q : p + 1 ≠ q := by omega
  have hp1q1 : p + 1 ≠ q + 1 := by omega
  rw [List.set_comm b c (buf.set p a) hp1q, List.set_comm a c buf hpq,
    List.set_comm b d ((buf.set q c).set p a) hp1q1, List.set_comm a d (buf.set q c) hpq1]

/-- The loop as a fold, when every entry lies inside the buffer. -/
theorem applyRelocs_eq_foldl (be : Bool) (relseg : Int) (tbl : List RL) (buf : List Byte)
    (hin : ∀ x ∈ tbl, relocOffset be x + 1 < buf.length) :
    applyRelocs be relseg tbl buf =
      some (tbl.foldl (fun b x => patchLE relseg b (relocOffset be x)) buf) := by
  induction tbl generalizing buf with
  | nil => rfl
  | cons e rest ih =>
    have he := hin e (List.mem_cons_self _ _)
    simp only [applyRelocs, he, if_true, List.foldl_cons]
    rw [ih, patch_eq_patchLE]
    intro x hx
    rw [patch_length]
    exact hin x (List.mem_cons_of_mem _ hx)

/-- An entry that reaches the end of the buffer or lies beyond stops the loop
outside the buffer. -/
theorem applyRelocs_outside (be : Bool) (relseg : Int) (tbl : List RL) (buf : List Byte)
    (hout : ∃ x ∈ tbl, buf.length ≤ relocOffset be x + 1) :
    applyRelocs be relseg tbl buf = none := by
  induction tbl generalizing buf with
  | nil => obtain ⟨x, hx, -⟩ := hout; cases hx
  | cons e rest ih =>
    simp only [applyRelocs]
    split
    · apply ih
      obtain ⟨x, hx, hl⟩ := hout
      rcases List.mem_cons.mp hx with rfl | hx
      · omega
      · exact ⟨x, hx, by rw [patch_length]; exact hl⟩
    · rfl

/-! ## The stages of `doit` on a valid header -/

theorem afterHeader_of_valid (env : Env) (f : List Byte) (mz : MZ)
    (hmz : readMZ env.bigEndian f = some mz) (hvalid : ValidHeader env.bigEndian mz)
    (hip : endianize env.bigEndian mz.ip = 0 ∨ endianize env.bigEndian mz.ip = 0x0100)
    (hmem : env.mallocOk (derivedSize env.bigEndian mz).toNat = true) :
    afterHeader env f mz = relocateAndWrite env f mz (derivedSize env.bigEndian mz).toNat := by
  obtain ⟨hsig, hS0, hS1, hcs, hss, hsp⟩ := hvalid
  obtain ⟨-, hxb, -, hrl, -, hss', hsp', hip', hcs', -⟩ := readMZ_lt _ _ _ hmz
  unfold derivedSize at *
  have hs := imageSize_eq_toNat env.bigEndian mz hxb hS0 hS1
  have hsz := (sizeCheck_eq_false_iff env.bigEndian mz hxb).mpr ⟨hS0, hS1⟩
  have hsg := (sigCheck_eq_false_iff env.bigEndian mz).mpr hsig
  have hen : entryCheck env.bigEndian mz = false := by
    rw [← Bool.not_eq_true, entryCheck_eq_true_iff _ _ hcs' hip']
    rcases hip with h | h <;> simp [hcs, h]
  have hst : stackCheck mz = false := by
    rw [← Bool.not_eq_true, stackCheck_eq_true_iff env.bigEndian _ hss' hsp']
    simp [hss, hsp]
  unfold afterHeader
  simp only [hsg, hsz, hen, hst, hs, hmem, Bool.not_true, Bool.false_eq_true, if_false]

theorem loadRelocs_of_no_relocs (env : Env) (f : List Byte) (mz : MZ)
    (hmz : readMZ env.bigEndian f = some mz) (hrel : endianize env.bigEndian mz.relocs = 0) :
    loadRelocs env f mz = .ok none := by
  obtain ⟨-, -, -, hrl, -⟩ := readMZ_lt _ _ _ hmz
  have hr0 : mz.relocs = 0 := (endianize_eq_zero_iff _ _ hrl).mp hrel
  simp [loadRelocs, hr0]

theorem loadRelocs_of_table (env : Env) (f : List Byte) (mz : MZ)
    (hmz : readMZ env.bigEndian f = some mz) (hrel : endianize env.bigEndian mz.relocs ≠ 0)
    (hip : endianize env.bigEndian mz.ip = 0) (hseg : 0 ≤ env.relseg)
    (hmem : env.mallocOk (endianize env.bigEndian mz.relocs * 4) = true)
    (htbl : endianize env.bigEndian mz.relocs ≤ (relocTable env.bigEndian f mz).length) :
    loadRelocs env f mz = .ok (some (relocTable env.bigEndian f mz)) := by
  obtain ⟨-, -, -, hrl, -, -, -, hip', -⟩ := readMZ_lt _ _ _ hmz
  have hr0 : mz.relocs ≠ 0 := fun h => hrel ((endianize_eq_zero_iff _ _ hrl).mpr h)
  have hi0 : mz.ip = 0 := (endianize_eq_zero_iff _ _ hip').mp hip
  have h4 : endianize env.bigEndian mz.relocs <<< 2 = endianize env.bigEndian mz.relocs * 4 := by
    rw [Nat.shiftLeft_eq]
  unfold loadRelocs
  simp only [hr0, hi0, ne_eq, not_false_eq_true, if_true, not_true_eq_false, if_false,
    Int.not_lt.mpr hseg, h4, hmem, Bool.not_true, Bool.false_eq_true, Nat.not_lt.mpr htbl]

theorem applyRelocs_length (be : Bool) (relseg : Int) (tbl : List RL) (buf out : List Byte)
    (h : applyRelocs be relseg tbl buf = some out) : out.length = buf.length := by
  induction tbl generalizing buf with
  | nil => simp only [applyRelocs, Option.some.injEq] at h; rw [← h]
  | cons e rest ih =>
    simp only [applyRelocs] at h
    split at h
    · rw [ih _ h, patch_length]
    · exact absurd h (by simp)

theorem convert_flat_of_no_table (env : Env) (f : List Byte) (mz : MZ) (s : Nat)
    (hip : endianize env.bigEndian mz.ip = 0)
    (hlen : imageStart env.bigEndian mz + s ≤ f.length)
    (hopen : env.tgtOpens = true) (hroom : s ≤ env.tgtRoom) :
    convert env f mz s none =
      .ret 0 [] (some ((f.drop (imageStart env.bigEndian mz)).take s)) := by
  unfold imageStart at *
  obtain ⟨himg, hgot⟩ := loadImage_full env f mz s hlen
  unfold convert
  simp only [hip, hgot, Nat.lt_irrefl, if_false, himg]
  have : decide ((0 : Nat) = 0x0100) = false := by decide
  rw [this]
  exact writeOut_flat env s 0 [] _ (by rw [← himg]; exact loadImage_length env f mz s) hopen hroom

theorem convert_flat_of_table (env : Env) (f : List Byte) (mz : MZ) (s : Nat)
    (tbl : List RL) (out : List Byte)
    (hip : endianize env.bigEndian mz.ip = 0)
    (hlen : imageStart env.bigEndian mz + s ≤ f.length)
    (happly : applyRelocs env.bigEndian env.relseg tbl
      ((f.drop (imageStart env.bigEndian mz)).take s) = some out)
    (hopen : env.tgtOpens = true) (hroom : s ≤ env.tgtRoom) :
    convert env f mz s (some tbl) = .ret 0 [] (some out) := by
  unfold imageStart at *
  obtain ⟨himg, hgot⟩ := loadImage_full env f mz s hlen
  have hol := applyRelocs_length _ _ _ _ _ happly
  unfold convert
  simp only [hip, hgot, Nat.lt_irrefl, if_false, himg, happly]
  have : decide ((0 : Nat) = 0x0100) = false := by decide
  rw [this]
  refine writeOut_flat env s 0 [] _ ?_ hopen hroom
  rw [hol, ← himg]; exact loadImage_length env f mz s

theorem convert_of_table_outside (env : Env) (f : List Byte) (mz : MZ) (s : Nat)
    (tbl : List RL)
    (happly : applyRelocs env.bigEndian env.relseg tbl (loadImage env f mz s) = none) :
    convert env f mz s (some tbl) = .outOfBounds := by
  unfold convert
  simp only [happly]

/-- The three ways the write stage ends. -/
theorem writeOut_cases (env : Env) (comovr : Bool) (s e : Nat) (msgs : List Diag)
    (buf : List Byte) :
    writeOut env comovr s e msgs buf = .outOfBounds ∨
    writeOut env comovr s e msgs buf = .ret 3 (msgs ++ [.openTgt]) none ∨
    ∃ c m d, writeOut env comovr s e msgs buf = .ret c m (some d) := by
  unfold writeOut
  simp only
  generalize (if comovr = true then 0x0100 else 0) = start
  generalize (if comovr = true then (s + 2 ^ 32 - 0x0100) % 2 ^ 32 else s) = count
  by_cases ho : env.tgtOpens = true
  · simp only [ho, Bool.not_true, Bool.false_eq_true, if_false]
    by_cases h1 : start + count ≤ buf.length
    · simp only [h1, if_true]
      by_cases h2 : min count env.tgtRoom < count
      · simp only [h2, if_true]
        exact Or.inr (Or.inr ⟨_, _, _, rfl⟩)
      · simp only [h2, if_false]
        exact Or.inr (Or.inr ⟨_, _, _, rfl⟩)
    · simp only [h1, if_false]
      exact Or.inl trivial
  · have hf : env.tgtOpens = false := by simpa using ho
    simp only [hf, Bool.not_false, if_true]
    exact Or.inr (Or.inl trivial)

theorem convert_cases (env : Env) (f : List Byte) (mz : MZ) (s : Nat) (rl : Option (List RL)) :
    convert env f mz s rl = .outOfBounds ∨
    (∃ m, convert env f mz s rl = .ret 3 (m ++ [.openTgt]) none) ∨
    ∃ c m d, convert env f mz s rl = .ret c m (some d) := by
  unfold convert
  simp only
  split
  · split
    · rcases writeOut_cases env _ s _ _ _ with h | h | h
      · exact Or.inl h
      · exact Or.inr (Or.inl ⟨_, h⟩)
      · exact Or.inr (Or.inr h)
    · exact Or.inl rfl
  · rcases writeOut_cases env _ s _ _ _ with h | h | h
    · exact Or.inl h
    · exact Or.inr (Or.inl ⟨_, h⟩)
    · exact Or.inr (Or.inr h)

theorem loadRelocs_cases (env : Env) (f : List Byte) (mz : MZ) :
    (∃ rl, loadRelocs env f mz = .ok rl) ∨
    loadRelocs env f mz = .error (.ret 7 [.relocsWithIP] none) ∨
    loadRelocs env f mz = .error (.ret 7 [.needSwitch] none) ∨
    loadRelocs env f mz = .error (.ret 6 [.relocMemory] none) ∨
    loadRelocs env f mz = .error (.ret 4 [.relocRead] none) := by
  unfold loadRelocs
  split
  · split
    · exact Or.inr (Or.inl rfl)
    · split
      · exact Or.inr (Or.inr (Or.inl rfl))
      · split
        · exact Or.inr (Or.inr (Or.inr (Or.inl rfl)))
        · simp only
          split
          · exact Or.inr (Or.inr (Or.inr (Or.inr rfl)))
          · exact Or.inl ⟨_, rfl⟩
  · exact Or.inl ⟨_, rfl⟩

/-- The image stage never ends, the destination unopened, with a single
diagnostic other than that of the failed opening. -/
theorem convert_ne (env : Env) (f : List Byte) (mz : MZ) (s c : Nat) (rl : Option (List RL))
    (d : Diag) (hd : d ≠ .openTgt) :
    convert env f mz s rl ≠ .ret c [d] none := by
  rcases convert_cases env f mz s rl with h1 | ⟨m, h1⟩ | ⟨c1, m, d1, h1⟩
  · rw [h1]; simp
  · rw [h1]
    intro hh
    injection hh with _ hm _
    cases m with
    | nil =>
      simp only [List.nil_append, List.cons.injEq, and_true] at hm
      exact hd hm.symm
    | cons a t =>
      cases t <;> simp at hm
  · rw [h1]; simp

/-- The stages after the header tests never end with the diagnostic of a
header test. -/
theorem relocateAndWrite_ne (env : Env) (f : List Byte) (mz : MZ) (s c : Nat) (d : Diag)
    (hd : d = .notDosExe ∨ d = .tooLarge ∨ d = .tooLargeForMemory ∨ d = .startAddress ∨
      d = .explicitStack) :
    relocateAndWrite env f mz s ≠ .ret c [d] none := by
  unfold relocateAndWrite
  rcases loadRelocs_cases env f mz with ⟨rl, h⟩ | h | h | h | h
  · rw [h]
    exact convert_ne env f mz s c rl d (by rcases hd with h | h | h | h | h <;> simp [h])
  all_goals
    rw [h]
    simp only [ne_eq, Outcome.ret.injEq, List.cons.injEq, and_true, not_and]
    intro _ hh
    subst hh
    simp at hd

/-! ## Every way `doit` ends -/

/-- The four ways the write stage ends. -/
theorem writeOut_ends (env : Env) (comovr : Bool) (s e : Nat) (msgs : List Diag)
    (buf : List Byte) :
    writeOut env comovr s e msgs buf = .outOfBounds ∨
    writeOut env comovr s e msgs buf = .ret 3 (msgs ++ [.openTgt]) none ∨
    (∃ d, writeOut env comovr s e msgs buf = .ret 8 (msgs ++ [.shortWrite]) (some d)) ∨
    ∃ d, writeOut env comovr s e msgs buf = .ret e msgs (some d) := by
  unfold writeOut
  simp only
  generalize (if comovr = true then 0x0100 else 0) = start
  generalize (if comovr = true then (s + 2 ^ 32 - 0x0100) % 2 ^ 32 else s) = count
  by_cases ho : env.tgtOpens = true
  · simp only [ho, Bool.not_true, Bool.false_eq_true, if_false]
    by_cases h1 : start + count ≤ buf.length
    · simp only [h1, if_true]
      by_cases h2 : min count env.tgtRoom < count
      · simp only [h2, if_true]
        exact Or.inr (Or.inr (Or.inl ⟨_, rfl⟩))
      · simp only [h2, if_false]
        exact Or.inr (Or.inr (Or.inr ⟨_, rfl⟩))
    · simp only [h1, if_false]
      exact Or.inl trivial
  · have hf : env.tgtOpens = false := by simpa using ho
    simp only [hf, Bool.not_false, if_true]
    exact Or.inr (Or.inl trivial)

/-- The five ways the image stage ends. -/
theorem convert_ends (env : Env) (f : List Byte) (mz : MZ) (s : Nat) (rl : Option (List RL)) :
    convert env f mz s rl = .outOfBounds ∨
    (∃ m, convert env f mz s rl = .ret 3 (m ++ [.openTgt]) none) ∨
    (∃ m d, convert env f mz s rl = .ret 8 (m ++ [.shortWrite]) (some d)) ∨
    (∃ d, convert env f mz s rl = .ret 0 [] (some d)) ∨
    ∃ d, convert env f mz s rl = .ret 4 [.shortRead] (some d) := by
  have key : ∀ (comovr : Bool) (e : Nat) (msgs : List Diag) (buf : List Byte),
      (e = 0 ∧ msgs = []) ∨ (e = 4 ∧ msgs = [.shortRead]) →
      writeOut env comovr s e msgs buf = .outOfBounds ∨
      (∃ m, writeOut env comovr s e msgs buf = .ret 3 (m ++ [.openTgt]) none) ∨
      (∃ m d, writeOut env comovr s e msgs buf = .ret 8 (m ++ [.shortWrite]) (some d)) ∨
      (∃ d, writeOut env comovr s e msgs buf = .ret 0 [] (some d)) ∨
      ∃ d, writeOut env comovr s e msgs buf = .ret 4 [.shortRead] (some d) := by
    intro comovr e msgs buf hem
    rcases writeOut_ends env comovr s e msgs buf with h | h | ⟨d, h⟩ | ⟨d, h⟩
    · exact Or.inl h
    · exact Or.inr (Or.inl ⟨_, h⟩)
    · exact Or.inr (Or.inr (Or.inl ⟨_, _, h⟩))
    · rcases hem with ⟨he, hm⟩ | ⟨he, hm⟩
      · subst he; subst hm
        exact Or.inr (Or.inr (Or.inr (Or.inl ⟨_, h⟩)))
      · subst he; subst hm
        exact Or.inr (Or.inr (Or.inr (Or.inr ⟨_, h⟩)))
  have hem : ∀ (r : Nat), ((if r < s then 4 else 0) = 0 ∧
        (if r < s then [Diag.shortRead] else []) = []) ∨
      ((if r < s then 4 else 0) = 4 ∧
        (if r < s then [Diag.shortRead] else []) = [Diag.shortRead]) := by
    intro r
    by_cases h : r < s
    · simp only [h, if_true, and_self, or_true]
    · simp only [h, if_false, and_self, true_or]
  unfold convert
  simp only
  split
  · split
    · exact key _ _ _ _ (hem _)
    · exact Or.inl rfl
  · exact key _ _ _ _ (hem _)

/-- Every way the stages after the header read end. -/
theorem afterHeader_ends (env : Env) (f : List Byte) (mz : MZ) :
    (∃ c d, afterHeader env f mz = .ret c [d] none ∧ d ≠ .openSrc ∧ d ≠ .headerRead ∧
      (c = 5 ∨ c = 6 ∨ c = 7 ∨ (c = 4 ∧ d = .relocRead))) ∨
    afterHeader env f mz = .outOfBounds ∨
    (∃ m, afterHeader env f mz = .ret 3 (m ++ [.openTgt]) none) ∨
    (∃ m d, afterHeader env f mz = .ret 8 (m ++ [.shortWrite]) (some d)) ∨
    (∃ d, afterHeader env f mz = .ret 0 [] (some d)) ∨
    ∃ d, afterHeader env f mz = .ret 4 [.shortRead] (some d) := by
  unfold afterHeader
  simp only
  split
  · exact Or.inl ⟨5, .notDosExe, rfl, by simp, by simp, by simp⟩
  split
  · exact Or.inl ⟨6, .tooLarge, rfl, by simp, by simp, by simp⟩
  split
  · exact Or.inl ⟨6, .tooLargeForMemory, rfl, by simp, by simp, by simp⟩
  split
  · exact Or.inl ⟨7, .startAddress, rfl, by simp, by simp, by simp⟩
  split
  · exact Or.inl ⟨7, .explicitStack, rfl, by simp, by simp, by simp⟩
  unfold relocateAndWrite
  rcases loadRelocs_cases env f mz with ⟨rl, h⟩ | h | h | h | h
  · rw [h]
    exact Or.inr (convert_ends env f mz _ rl)
  · rw [h]; exact Or.inl ⟨7, .relocsWithIP, rfl, by simp, by simp, by simp⟩
  · rw [h]; exact Or.inl ⟨7, .needSwitch, rfl, by simp, by simp, by simp⟩
  · rw [h]; exact Or.inl ⟨6, .relocMemory, rfl, by simp, by simp, by simp⟩
  · rw [h]; exact Or.inl ⟨4, .relocRead, rfl, by simp, by simp, by simp⟩

/-! ## C1: a header without relocations and with entry point 0 -/

/-- Claim C1.  A source whose header was read and is valid (signature MZ, derived
size `S` between 0 and 0xFFFF, `cs = 0`, `ss = sp = 0`), with no relocations and
`ip = 0`, and which holds `hdrlen*16 + S` bytes, is converted with return value 0
and no diagnostic, and the destination holds exactly the `S` bytes of the source
from byte `hdrlen*16` on (the buffer being allocated, the destination opening and
taking `S` bytes).  `S = 0` is included. -/
theorem doit_flat_image (env : Env) (f : List Byte) (mz : MZ)
    (hsrc : env.srcFile = some f) (hmz : readMZ env.bigEndian f = some mz)
    (hvalid : ValidHeader env.bigEndian mz)
    (hrel : endianize env.bigEndian mz.relocs = 0)
    (hip : endianize env.bigEndian mz.ip = 0)
    (hlen : imageStart env.bigEndian mz + (derivedSize env.bigEndian mz).toNat ≤ f.length)
    (hmem : env.mallocOk (derivedSize env.bigEndian mz).toNat = true)
    (hopen : env.tgtOpens = true)
    (hroom : (derivedSize env.bigEndian mz).toNat ≤ env.tgtRoom) :
    doit env = .ret 0 [] (some (sourceImage env.bigEndian f mz)) := by
  rw [doit_of_header env f mz hsrc hmz, afterHeader_of_valid env f mz hmz hvalid (Or.inl hip) hmem]
  unfold relocateAndWrite
  rw [loadRelocs_of_no_relocs env f mz hmz hrel]
  exact convert_flat_of_no_table env f mz _ hip hlen hopen hroom

set_option maxRecDepth 100000 in
/-- Witness of `doit_flat_image`: scenario 1 of the specification, whose output
is the 992 bytes that follow the 32-byte header. -/
theorem doit_flat_image_witness :
    doit (plainEnv false scenario1File (-1)) = .ret 0 [] (some image992) :=
  doit_flat_image (plainEnv false scenario1File (-1)) scenario1File scenario1MZ rfl
    (by decide) (by decide) (by decide) (by decide) (by decide) rfl rfl (by decide)

/-! ## C2: the word a relocation entry addresses -/

/-- Claim C2 as stated fails: in `twiceFile` the only position the table names,
`0x10`, lies inside the 34-byte image and holds `0x0200`; with `relseg = 0x1000`
the conversion succeeds, but the table names the position twice and the output
word is `0x2200`, not `(0x0200 + 0x1000) mod 65536 = 0x1200`. -/
theorem doit_reloc_word_counterexample :
    readMZ false twiceFile = some twiceMZ ∧ ValidHeader false twiceMZ ∧
    0 < endianize false twiceMZ.relocs ∧ endianize false twiceMZ.ip = 0 ∧
    relocTable false twiceFile twiceMZ = [{ off := 0x10, seg := 0 }, { off := 0x10, seg := 0 }] ∧
    linearPos false { off := 0x10, seg := 0 } = 0x10 ∧
    (0x10 + 1 < (derivedSize false twiceMZ).toNat) ∧
    word16At (sourceImage false twiceFile twiceMZ) 0x10 = 0x0200 ∧
    doit (plainEnv false twiceFile 0x1000) = .ret 0 [] (some twiceOutput) ∧
    word16At twiceOutput 0x10 = 0x2200 ∧
    word16At twiceOutput 0x10 ≠
      (word16At (sourceImage false twiceFile twiceMZ) 0x10 + 0x1000) % 65536 := by
  decide

/-- Claim C2, amended.  For a valid header with `relocationCount > 0`,
`initialIP = 0` and `relseg ≥ 0`, the image and the table fully present in the
file, every entry of the table addressing a 2-byte window inside the `S`-byte
image, and `e` an entry whose window no other entry of the table overlaps: the
conversion returns 0, the output has `S` bytes, and its little-endian word at
the linear position of `e` is the word of the source image there plus `relseg`,
modulo 65536. -/
theorem doit_reloc_word (env : Env) (f : List Byte) (mz : MZ) (pre post : List RL) (e : RL)
    (hsrc : env.srcFile = some f) (hmz : readMZ env.bigEndian f = some mz)
    (hvalid : ValidHeader env.bigEndian mz)
    (hrel : 0 < endianize env.bigEndian mz.relocs)
    (hip : endianize env.bigEndian mz.ip = 0)
    (hseg : 0 ≤ env.relseg)
    (hlen : imageStart env.bigEndian mz + (derivedSize env.bigEndian mz).toNat ≤ f.length)
    (htbl : relocTable env.bigEndian f mz = pre ++ e :: post)
    (hcnt : (relocTable env.bigEndian f mz).length = endianize env.bigEndian mz.relocs)
    (hin : ∀ x ∈ pre ++ e :: post,
      linearPos env.bigEndian x + 1 < (derivedSize env.bigEndian mz).toNat)
    (hdis : ∀ x ∈ pre ++ post,
      linearPos env.bigEndian e + 1 < linearPos env.bigEndian x ∨
      linearPos env.bigEndian x + 1 < linearPos env.bigEndian e)
    (hmem : env.mallocOk (derivedSize env.bigEndian mz).toNat = true)
    (hmemrl : env.mallocOk (endianize env.bigEndian mz.relocs * 4) = true)
    (hopen : env.tgtOpens = true)
    (hroom : (derivedSize env.bigEndian mz).toNat ≤ env.tgtRoom) :
    ∃ out, doit env = .ret 0 [] (some out) ∧
      out.length = (derivedSize env.bigEndian mz).toNat ∧
      ((word16At out (linearPos env.bigEndian e) : Nat) : Int) =
        (((word16At (sourceImage env.bigEndian f mz) (linearPos env.bigEndian e) : Nat) : Int)
          + env.relseg) % 65536 := by
  have hl : (sourceImage env.bigEndian f mz).length = (derivedSize env.bigEndian mz).toNat := by
    unfold sourceImage
    rw [List.length_take, List.length_drop]; omega
  obtain ⟨out, h1, h2, h3⟩ := applyRelocs_word env.bigEndian env.relseg pre post e
    (sourceImage env.bigEndian f mz)
    (fun x hx => by rw [relocOffset_eq, hl]; exact hin x hx)
    (fun x hx => by rw [relocOffset_eq, relocOffset_eq]; exact hdis x hx)
  refine ⟨out, ?_, by rw [h2, hl], by rw [← relocOffset_eq]; exact h3⟩
  rw [doit_of_header env f mz hsrc hmz, afterHeader_of_valid env f mz hmz hvalid (Or.inl hip) hmem]
  unfold relocateAndWrite
  rw [loadRelocs_of_table env f mz hmz (Nat.pos_iff_ne_zero.mp hrel) hip hseg hmemrl (le_of_eq hcnt.symm)]
  exact convert_flat_of_table env f mz _ _ out hip hlen (by rw [htbl]; exact h1) hopen hroom

/-- Witness of `doit_reloc_word`: scenario 3 of the specification, in which the
word `0x0200` at offset `0x10` becomes `0x1200`. -/
theorem doit_reloc_word_witness :
    ∃ out, doit (plainEnv false scenario3File 0x1000) = .ret 0 [] (some out) ∧
      out.length = 34 ∧ ((word16At out 0x10 : Nat) : Int) = (0x0200 + 0x1000) % 65536 :=
  doit_reloc_word (plainEnv false scenario3File 0x1000) scenario3File scenario3MZ [] []
    { off := 0x10, seg := 0 } rfl (by decide) (by decide) (by decide) (by decide) (by decide)
    (by decide) (by decide) (by decide) (by decide) (by decide) rfl rfl rfl (by decide)

/-! ## C3: entry point 0000:0100 -/

theorem writeOut_com (env : Env) (s e : Nat) (msgs : List Diag) (buf : List Byte)
    (hs : 0x0100 ≤ s) (hs1 : s ≤ 0xFFFF) (hlen : buf.length = s) (hopen : env.tgtOpens = true)
    (hroom : s - 0x0100 ≤ env.tgtRoom) :
    writeOut env true s e msgs buf = .ret e msgs (some (buf.drop 0x0100)) := by
  have hc : (s + 2 ^ 32 - 0x0100) % 2 ^ 32 = s - 0x0100 := by omega
  unfold writeOut
  simp only [hopen, Bool.not_true, Bool.false_eq_true, if_false, if_true, hc, hlen,
    Nat.min_eq_left hroom, Nat.lt_irrefl]
  have h1 : 0x0100 + (s - 0x0100) ≤ s := by omega
  simp only [h1, if_true]
  rw [List.take_of_length_le (by rw [List.length_drop, hlen])]

theorem writeOut_com_small (env : Env) (s e : Nat) (msgs : List Diag) (buf : List Byte)
    (hs : s < 0x0100) (hlen : buf.length = s) (hopen : env.tgtOpens = true) :
    writeOut env true s e msgs buf = .outOfBounds := by
  have hc : (s + 2 ^ 32 - 0x0100) % 2 ^ 32 = s + 2 ^ 32 - 0x0100 := by omega
  unfold writeOut
  simp only [hopen, Bool.not_true, Bool.false_eq_true, if_false, if_true, hc, hlen]
  have h1 : ¬ (0x0100 + (s + 2 ^ 32 - 0x0100) ≤ s) := by omega
  simp only [h1, if_false]

/-- The part of claim C3 the code keeps: with entry point 0000:0100, no
relocations and a derived size `S` of at least `0x100`, the conversion returns 0
and the destination is the image from offset `0x100` on. -/
theorem doit_com_image (env : Env) (f : List Byte) (mz : MZ)
    (hsrc : env.srcFile = some f) (hmz : readMZ env.bigEndian f = some mz)
    (hvalid : ValidHeader env.bigEndian mz)
    (hrel : endianize env.bigEndian mz.relocs = 0)
    (hip : endianize env.bigEndian mz.ip = 0x0100)
    (hbig : 0x0100 ≤ derivedSize env.bigEndian mz)
    (hlen : imageStart env.bigEndian mz + (derivedSize env.bigEndian mz).toNat ≤ f.length)
    (hmem : env.mallocOk (derivedSize env.bigEndian mz).toNat = true)
    (hopen : env.tgtOpens = true)
    (hroom : (derivedSize env.bigEndian mz).toNat - 0x0100 ≤ env.tgtRoom) :
    doit env = .ret 0 [] (some ((sourceImage env.bigEndian f mz).drop 0x0100)) := by
  rw [doit_of_header env f mz hsrc hmz, afterHeader_of_valid env f mz hmz hvalid (Or.inr hip) hmem]
  unfold relocateAndWrite
  rw [loadRelocs_of_no_relocs env f mz hmz hrel]
  obtain ⟨-, -, hS1, -⟩ := hvalid
  have hb0 : 0x0100 ≤ (derivedSize env.bigEndian mz).toNat := by omega
  have hb1 : (derivedSize env.bigEndian mz).toNat ≤ 0xFFFF := by omega
  unfold sourceImage
  generalize (derivedSize env.bigEndian mz).toNat = s at *
  obtain ⟨himg, hgot⟩ := loadImage_full env f mz s hlen
  unfold convert
  simp only [hip, hgot, Nat.lt_irrefl, if_false, himg, decide_True]
  unfold imageStart
  refine writeOut_com env s 0 [] _ hb0 hb1 ?_ hopen hroom
  rw [← himg]; exact loadImage_length env f mz s

set_option maxRecDepth 100000 in
/-- Scenario 2 of the specification through `doit_com_image`: the 992-byte image
without its first 256 bytes, 736 bytes. -/
theorem doit_com_image_scenario2 :
    doit (plainEnv false scenario2File (-1)) = .ret 0 [] (some (image992.drop 0x0100)) ∧
    (image992.drop 0x0100).length = 736 :=
  ⟨doit_com_image (plainEnv false scenario2File (-1)) scenario2File scenario2MZ rfl
    (by decide) (by decide) (by decide) (by decide) (by decide) (by decide) rfl rfl (by decide),
   by decide⟩

/-- Claim C3 fails on the code for a derived size below `0x100`.  `comEmptyFile`
has a valid header with `initialIP = 0x0100`, no relocations and `S = 0`, and
holds its whole (empty) image; the claim promises return value 0 and an empty
destination, but the byte count `s-0x0100` of the write wraps around to
`0xFFFFFF00` and the write reads outside the image buffer. -/
theorem doit_com_empty_image_outOfBounds :
    readMZ false comEmptyFile = some comEmptyMZ ∧ ValidHeader false comEmptyMZ ∧
    endianize false comEmptyMZ.ip = 0x0100 ∧ endianize false comEmptyMZ.relocs = 0 ∧
    derivedSize false comEmptyMZ = 0 ∧
    imageStart false comEmptyMZ + (derivedSize false comEmptyMZ).toNat ≤ comEmptyFile.length ∧
    doit (plainEnv false comEmptyFile (-1)) = .outOfBounds ∧
    doit (plainEnv false comEmptyFile (-1)) ≠ .ret 0 [] (some []) := by
  decide

/-- The same on every input: with entry point 0000:0100 and a derived size
below `0x100` the write reads outside the image buffer, whatever the file
holds. -/
theorem doit_com_small_image (env : Env) (f : List Byte) (mz : MZ)
    (hsrc : env.srcFile = some f) (hmz : readMZ env.bigEndian f = some mz)
    (hvalid : ValidHeader env.bigEndian mz)
    (hrel : endianize env.bigEndian mz.relocs = 0)
    (hip : endianize env.bigEndian mz.ip = 0x0100)
    (hsmall : derivedSize env.bigEndian mz < 0x0100)
    (hmem : env.mallocOk (derivedSize env.bigEndian mz).toNat = true)
    (hopen : env.tgtOpens = true) :
    doit env = .outOfBounds := by
  rw [doit_of_header env f mz hsrc hmz, afterHeader_of_valid env f mz hmz hvalid (Or.inr hip) hmem]
  unfold relocateAndWrite
  rw [loadRelocs_of_no_relocs env f mz hmz hrel]
  obtain ⟨-, hS0, -, -⟩ := hvalid
  have hb0 : (derivedSize env.bigEndian mz).toNat < 0x0100 := by omega
  unfold convert
  simp only [hip, decide_True]
  exact writeOut_com_small env _ _ _ _ hb0 (loadImage_length env f mz _) hopen

/-! ## C4: the size test -/

/-- Claim C4.  For a header that was read and has signature MZ, the size test of
line 180 lets the header pass exactly when the integer `S` lies in `0 .. 0xFFFF`,
and `doit` returns 6 with the diagnostic of that test, the destination untouched,
exactly when `S` lies outside: so `S = 0xFFFF` passes, and `S = 0x10000` and
every `S < 0` are rejected and not converted. -/
theorem doit_size_check (env : Env) (f : List Byte) (mz : MZ)
    (hsrc : env.srcFile = some f) (hmz : readMZ env.bigEndian f = some mz)
    (hsig : endianize env.bigEndian mz.sig = 0x5A4D) :
    (sizeCheck env.bigEndian mz = false ↔
      0 ≤ derivedSize env.bigEndian mz ∧ derivedSize env.bigEndian mz ≤ 0xFFFF) ∧
    (doit env = .ret 6 [.tooLarge] none ↔
      derivedSize env.bigEndian mz < 0 ∨ 0xFFFF < derivedSize env.bigEndian mz) ∧
    (derivedSize env.bigEndian mz = 0xFFFF → doit env ≠ .ret 6 [.tooLarge] none) ∧
    (derivedSize env.bigEndian mz = 0x10000 → doit env = .ret 6 [.tooLarge] none) ∧
    (derivedSize env.bigEndian mz < 0 → doit env = .ret 6 [.tooLarge] none) := by
  obtain ⟨-, hxb, -⟩ := readMZ_lt _ _ _ hmz
  have hchk : sizeCheck env.bigEndian mz = false ↔
      0 ≤ derivedSize env.bigEndian mz ∧ derivedSize env.bigEndian mz ≤ 0xFFFF :=
    sizeCheck_eq_false_iff env.bigEndian mz hxb
  have hsg := (sigCheck_eq_false_iff env.bigEndian mz).mpr hsig
  have hiff : doit env = .ret 6 [.tooLarge] none ↔
      derivedSize env.bigEndian mz < 0 ∨ 0xFFFF < derivedSize env.bigEndian mz := by
    rw [doit_of_header env f mz hsrc hmz]
    unfold afterHeader
    simp only [hsg, Bool.false_eq_true, if_false]
    by_cases hc : sizeCheck env.bigEndian mz = true
    · simp only [hc, if_true, true_iff]
      have : ¬ (0 ≤ derivedSize env.bigEndian mz ∧ derivedSize env.bigEndian mz ≤ 0xFFFF) :=
        fun h => by rw [hchk.mpr h] at hc; exact Bool.false_ne_true hc
      omega
    · have hf : sizeCheck env.bigEndian mz = false := by simpa using hc
      have hr := hchk.mp hf
      simp only [hf, Bool.false_eq_true, if_false]
      constructor
      · intro h
        exfalso
        revert h
        split
        · simp
        · split
          · simp
          · split
            · simp
            · exact relocateAndWrite_ne env f mz _ 6 .tooLarge (Or.inr (Or.inl rfl))
      · intro h; omega
  refine ⟨hchk, hiff, ?_, ?_, ?_⟩
  · intro h hd
    have := hiff.mp hd
    omega
  · intro h
    exact hiff.mpr (by omega)
  · intro h
    exact hiff.mpr (Or.inl h)

/-- Witness of `doit_size_check`: the three boundary headers `S = 0xFFFF`,
`S = 0x10000` and `S = -1008`. -/
theorem doit_size_check_witness :
    (derivedSize false maxSizeMZ = 0xFFFF ∧
      doit (plainEnv false maxSizeFile (-1)) ≠ .ret 6 [.tooLarge] none) ∧
    (derivedSize false overSizeMZ = 0x10000 ∧
      doit (plainEnv false overSizeFile (-1)) = .ret 6 [.tooLarge] none) ∧
    (derivedSize false negSizeMZ = -1008 ∧
      doit (plainEnv false negSizeFile (-1)) = .ret 6 [.tooLarge] none) :=
  ⟨⟨by decide, (doit_size_check (plainEnv false maxSizeFile (-1)) maxSizeFile maxSizeMZ rfl
      (by decide) (by decide)).2.2.1 (by decide)⟩,
   ⟨by decide, (doit_size_check (plainEnv false overSizeFile (-1)) overSizeFile overSizeMZ rfl
      (by decide) (by decide)).2.2.2.1 (by decide)⟩,
   ⟨by decide, (doit_size_check (plainEnv false negSizeFile (-1)) negSizeFile negSizeMZ rfl
      (by decide) (by decide)).2.2.2.2 (by decide)⟩⟩

/-! ## C5: the signature test -/

/-- Claim C5.  When the header was read and its decoded signature is not
`0x5A4D`, `doit` returns 5 with the diagnostic of the signature test whatever the
other fields, the host and the switch are, and the destination is not opened. -/
theorem doit_not_dos_exe (env : Env) (f : List Byte) (mz : MZ)
    (hsrc : env.srcFile = some f) (hmz : readMZ env.bigEndian f = some mz)
    (hsig : endianize env.bigEndian mz.sig ≠ 0x5A4D) :
    doit env = .ret 5 [.notDosExe] none := by
  have hsg : sigCheck env.bigEndian mz = true := by simp [sigCheck, hsig]
  rw [doit_of_header env f mz hsrc hmz]
  unfold afterHeader
  simp only [hsg, if_true]

/-- Witness of `doit_not_dos_exe`: the signature bytes `Z`, `M` in a header whose
size, entry point, stack and relocation fields are all unsupported too. -/
theorem doit_not_dos_exe_witness :
    doit (plainEnv false zmFile (-1)) = .ret 5 [.notDosExe] none :=
  doit_not_dos_exe (plainEnv false zmFile (-1)) zmFile zmMZ rfl (by decide) (by decide)

/-! ## C6: the stack test -/

/-- Claim C6 as stated fails: the stack test comes fifth.  Each of these four
runs has `initialSS = 7`, and ends at an earlier test: the signature test
(code 5), the size test (code 6), the allocation of the image buffer (code 6)
and the start address test (code 7, another diagnostic). -/
theorem doit_explicit_stack_counterexample :
    fieldAt false stackAndZmFile 14 = 7 ∧
    doit (plainEnv false stackAndZmFile (-1)) = .ret 5 [.notDosExe] none ∧
    fieldAt false stackAndOverSizeFile 14 = 7 ∧
    doit (plainEnv false stackAndOverSizeFile (-1)) = .ret 6 [.tooLarge] none ∧
    fieldAt false stackFile 16 = 8 ∧
    doit { plainEnv false stackFile (-1) with mallocOk := fun _ => false } =
      .ret 6 [.tooLargeForMemory] none ∧
    fieldAt false stackAndCsFile 14 = 7 ∧
    doit (plainEnv false stackAndCsFile (-1)) = .ret 7 [.startAddress] none := by
  decide

/-- Claim C6, amended.  For a header with signature MZ, derived size within
`0 .. 0xFFFF`, `initialCS = 0` and `initialIP` 0 or `0x0100`, the image buffer
being allocated: when `initialSS` or `initialSP` is nonzero, `doit` returns 7 with
the diagnostic of the stack test and does not open the destination, whatever the
remaining fields (relocation count and table offset among them), the rest of the
file and the switch are. -/
theorem doit_explicit_stack (env : Env) (f : List Byte) (mz : MZ)
    (hsrc : env.srcFile = some f) (hmz : readMZ env.bigEndian f = some mz)
    (hsig : endianize env.bigEndian mz.sig = 0x5A4D)
    (hS0 : 0 ≤ derivedSize env.bigEndian mz) (hS1 : derivedSize env.bigEndian mz ≤ 0xFFFF)
    (hmem : env.mallocOk (derivedSize env.bigEndian mz).toNat = true)
    (hcs : endianize env.bigEndian mz.cs = 0)
    (hip : endianize env.bigEndian mz.ip = 0 ∨ endianize env.bigEndian mz.ip = 0x0100)
    (hstack : endianize env.bigEndian mz.ss ≠ 0 ∨ endianize env.bigEndian mz.sp ≠ 0) :
    doit env = .ret 7 [.explicitStack] none := by
  obtain ⟨-, hxb, -, -, -, hss', hsp', hip', hcs', -⟩ := readMZ_lt _ _ _ hmz
  unfold derivedSize at *
  have hs := imageSize_eq_toNat env.bigEndian mz hxb hS0 hS1
  have hsz := (sizeCheck_eq_false_iff env.bigEndian mz hxb).mpr ⟨hS0, hS1⟩
  have hsg := (sigCheck_eq_false_iff env.bigEndian mz).mpr hsig
  have hen : entryCheck env.bigEndian mz = false := by
    rw [← Bool.not_eq_true, entryCheck_eq_true_iff _ _ hcs' hip']
    rcases hip with h | h <;> simp [hcs, h]
  have hst : stackCheck mz = true :=
    (stackCheck_eq_true_iff env.bigEndian _ hss' hsp').mpr hstack
  rw [doit_of_header env f mz hsrc hmz]
  unfold afterHeader
  simp only [hsg, hsz, hen, hst, hs, hmem, Bool.not_true, Bool.false_eq_true, if_false, if_true]

/-- Witness of `doit_explicit_stack`: on a big-endian host, a header with
`initialSP = 8`, entry point 0000:0100 and three relocations announced. -/
theorem doit_explicit_stack_witness :
    doit (plainEnv true stackFile (-1)) = .ret 7 [.explicitStack] none :=
  doit_explicit_stack (plainEnv true stackFile (-1)) stackFile stackMZBigEndian rfl
    (by decide) (by decide) (by decide) (by decide) rfl (by decide) (by decide) (by decide)

/-! ## C7: the start address test -/

/-- Claim C7.  For a header that was read, on either host byte order: the start
address test of line 196 rejects exactly when the decoded `initialCS` is nonzero
or the decoded `initialIP` is neither 0 nor `0x0100`; when the header passes the
signature and size tests (and the image buffer is allocated) `doit` returns 7
with the diagnostic of this test, the destination untouched, exactly in that
case; and the undecoded `cs` and `ip` are zero exactly when the decoded ones
are. -/
theorem doit_entry_check (env : Env) (f : List Byte) (mz : MZ)
    (hsrc : env.srcFile = some f) (hmz : readMZ env.bigEndian f = some mz)
    (hsig : endianize env.bigEndian mz.sig = 0x5A4D)
    (hS0 : 0 ≤ derivedSize env.bigEndian mz) (hS1 : derivedSize env.bigEndian mz ≤ 0xFFFF)
    (hmem : env.mallocOk (derivedSize env.bigEndian mz).toNat = true) :
    (entryCheck env.bigEndian mz = true ↔
      endianize env.bigEndian mz.cs ≠ 0 ∨
      (endianize env.bigEndian mz.ip ≠ 0 ∧ endianize env.bigEndian mz.ip ≠ 0x0100)) ∧
    (doit env = .ret 7 [.startAddress] none ↔
      endianize env.bigEndian mz.cs ≠ 0 ∨
      (endianize env.bigEndian mz.ip ≠ 0 ∧ endianize env.bigEndian mz.ip ≠ 0x0100)) ∧
    (endianize env.bigEndian mz.cs = 0 →
      (endianize env.bigEndian mz.ip = 0 ∨ endianize env.bigEndian mz.ip = 0x0100) →
      doit env ≠ .ret 7 [.startAddress] none) ∧
    (mz.cs = 0 ↔ endianize env.bigEndian mz.cs = 0) ∧
    (mz.ip = 0 ↔ endianize env.bigEndian mz.ip = 0) := by
  obtain ⟨-, hxb, -, -, -, -, -, hip', hcs', -⟩ := readMZ_lt _ _ _ hmz
  have hen := entryCheck_eq_true_iff env.bigEndian mz hcs' hip'
  unfold derivedSize at *
  have hs := imageSize_eq_toNat env.bigEndian mz hxb hS0 hS1
  have hsz := (sizeCheck_eq_false_iff env.bigEndian mz hxb).mpr ⟨hS0, hS1⟩
  have hsg := (sigCheck_eq_false_iff env.bigEndian mz).mpr hsig
  have hiff : doit env = .ret 7 [.startAddress] none ↔
      endianize env.bigEndian mz.cs ≠ 0 ∨
      (endianize env.bigEndian mz.ip ≠ 0 ∧ endianize env.bigEndian mz.ip ≠ 0x0100) := by
    rw [← hen, doit_of_header env f mz hsrc hmz]
    unfold afterHeader
    simp only [hsg, hsz, hs, hmem, Bool.not_true, Bool.false_eq_true, if_false]
    by_cases hc : entryCheck env.bigEndian mz = true
    · simp only [hc, if_true]
    · have hf : entryCheck env.bigEndian mz = false := by simpa using hc
      simp only [hf, Bool.false_eq_true, if_false, iff_false]
      split
      · simp
      · exact relocateAndWrite_ne env f mz _ 7 .startAddress
          (Or.inr (Or.inr (Or.inr (Or.inl rfl))))
  refine ⟨hen, hiff, ?_, (endianize_eq_zero_iff _ _ hcs').symm,
    (endianize_eq_zero_iff _ _ hip').symm⟩
  intro h1 h2 hd
  rcases hiff.mp hd with h | ⟨h, h3⟩
  · exact h h1
  · rcases h2 with h2 | h2
    · exact h h2
    · exact h3 h2

/-- Witness of `doit_entry_check`: on a big-endian host a header whose entry
offset is `0x0001` on disk, `0x0100` in memory before decoding, is rejected by
the start address test. -/
theorem doit_entry_check_witness :
    doit (plainEnv true entryOneFile (-1)) = .ret 7 [.startAddress] none :=
  (doit_entry_check (plainEnv true entryOneFile (-1)) entryOneFile entryOneMZBigEndian rfl
    (by decide) (by decide) (by decide) (by decide) rfl).2.1.mpr (by decide)

/-! ## C8: relocations and the switch -/

/-- Claim C8.  For a header that passes the signature, size, start address and
stack tests (the image buffer being allocated): with `relocationCount > 0`, an
`initialIP` of `0x0100` makes `doit` return 7 with the diagnostic of line 217
whatever `relseg` is; otherwise a negative `relseg` (no switch given, `-1`) makes
it return 7 with the diagnostic of line 225; otherwise neither rejection occurs
and, the table buffer being allocated and the file holding the whole table,
`rl` is the table read from the file and `doit` goes on to the image with it.
With `relocationCount = 0` neither rejection occurs. -/
theorem doit_reloc_switch (env : Env) (f : List Byte) (mz : MZ)
    (hsrc : env.srcFile = some f) (hmz : readMZ env.bigEndian f = some mz)
    (hvalid : ValidHeader env.bigEndian mz)
    (hip : endianize env.bigEndian mz.ip = 0 ∨ endianize env.bigEndian mz.ip = 0x0100)
    (hmem : env.mallocOk (derivedSize env.bigEndian mz).toNat = true) :
    (0 < endianize env.bigEndian mz.relocs → endianize env.bigEndian mz.ip = 0x0100 →
      doit env = .ret 7 [.relocsWithIP] none) ∧
    (0 < endianize env.bigEndian mz.relocs → endianize env.bigEndian mz.ip = 0 →
      env.relseg < 0 → doit env = .ret 7 [.needSwitch] none) ∧
    (0 < endianize env.bigEndian mz.relocs → endianize env.bigEndian mz.ip = 0 →
      0 ≤ env.relseg →
      doit env ≠ .ret 7 [.relocsWithIP] none ∧ doit env ≠ .ret 7 [.needSwitch] none ∧
      (env.mallocOk (endianize env.bigEndian mz.relocs * 4) = true →
        endianize env.bigEndian mz.relocs ≤ (relocTable env.bigEndian f mz).length →
        loadRelocs env f mz = .ok (some (relocTable env.bigEndian f mz)) ∧
        doit env = convert env f mz (derivedSize env.bigEndian mz).toNat
          (some (relocTable env.bigEndian f mz)))) ∧
    (endianize env.bigEndian mz.relocs = 0 →
      doit env ≠ .ret 7 [.relocsWithIP] none ∧ doit env ≠ .ret 7 [.needSwitch] none) := by
  obtain ⟨-, -, -, hrl, -, -, -, hip', -⟩ := readMZ_lt _ _ _ hmz
  have hz := endianize_eq_zero_iff env.bigEndian mz.relocs hrl
  have hzi := endianize_eq_zero_iff env.bigEndian mz.ip hip'
  have hd : doit env = relocateAndWrite env f mz (derivedSize env.bigEndian mz).toNat := by
    rw [doit_of_header env f mz hsrc hmz, afterHeader_of_valid env f mz hmz hvalid hip hmem]
  rw [hd]
  refine ⟨?_, ?_, ?_, ?_⟩
  · intro hr hi
    have h1 : mz.relocs ≠ 0 := fun h => by rw [hz.mpr h] at hr; exact Nat.lt_irrefl 0 hr
    have h2 : mz.ip ≠ 0 := fun h => by rw [hzi.mpr h] at hi; exact absurd hi (by decide)
    simp [relocateAndWrite, loadRelocs, h1, h2]
  · intro hr hi hs
    have h1 : mz.relocs ≠ 0 := fun h => by rw [hz.mpr h] at hr; exact Nat.lt_irrefl 0 hr
    have h2 : mz.ip = 0 := hzi.mp hi
    simp [relocateAndWrite, loadRelocs, h1, h2, hs]
  · intro hr hi hs
    have h1 : mz.relocs ≠ 0 := fun h => by rw [hz.mpr h] at hr; exact Nat.lt_irrefl 0 hr
    have h2 : mz.ip = 0 := hzi.mp hi
    have hcases : relocateAndWrite env f mz (derivedSize env.bigEndian mz).toNat =
          .ret 6 [.relocMemory] none ∨
        relocateAndWrite env f mz (derivedSize env.bigEndian mz).toNat =
          .ret 4 [.relocRead] none ∨
        relocateAndWrite env f mz (derivedSize env.bigEndian mz).toNat =
          convert env f mz (derivedSize env.bigEndian mz).toNat
            (some (relocTable env.bigEndian f mz)) := by
      unfold relocateAndWrite loadRelocs
      simp only [h1, h2, ne_eq, not_false_eq_true, if_true, not_true_eq_false, if_false,
        Int.not_lt.mpr hs]
      by_cases hm : env.mallocOk (endianize env.bigEndian mz.relocs <<< 2) = true
      · simp only [hm, Bool.not_true, Bool.false_eq_true, if_false]
        by_cases ht : (relocTable env.bigEndian f mz).length < endianize env.bigEndian mz.relocs
        · simp only [ht, if_true, true_or, or_true]
        · simp only [ht, if_false, or_true]
      · have hf : env.mallocOk (endianize env.bigEndian mz.relocs <<< 2) = false := by
          simpa using hm
        simp only [hf, Bool.not_false, if_true, true_or]
    refine ⟨?_, ?_, ?_⟩
    · rcases hcases with h | h | h <;> rw [h]
      · simp
      · simp
      · exact convert_ne env f mz _ 7 _ .relocsWithIP (by simp)
    · rcases hcases with h | h | h <;> rw [h]
      · simp
      · simp
      · exact convert_ne env f mz _ 7 _ .needSwitch (by simp)
    · intro hm ht
      have hl := loadRelocs_of_table env f mz hmz (Nat.pos_iff_ne_zero.mp hr) hi hs hm ht
      refine ⟨hl, ?_⟩
      unfold relocateAndWrite
      rw [hl]
  · intro hr
    unfold relocateAndWrite
    rw [loadRelocs_of_no_relocs env f mz hmz hr]
    exact ⟨convert_ne env f mz _ 7 _ .relocsWithIP (by simp),
      convert_ne env f mz _ 7 _ .needSwitch (by simp)⟩

/-- Witness of `doit_reloc_switch`: scenario 3 of the specification on a
big-endian host without the switch is rejected for want of it. -/
theorem doit_reloc_switch_witness :
    doit (plainEnv true scenario3File (-1)) = .ret 7 [.needSwitch] none :=
  (doit_reloc_switch (plainEnv true scenario3File (-1)) scenario3File scenario3MZBigEndian rfl
    (by decide) (by decide) (by decide) rfl).2.1 (by decide) (by decide) (by decide)

/-! ## C9: entries that leave the image -/

/-- Claim C9 fails on the code.  `lastByteFile` has a valid header, `S = 34`, and
a table of one entry at linear position `p = 0x21` with `p + 1 ≥ S`; the claim
promises a failure with the corrupt-table condition and no access outside the
image buffer, but the loop of lines 271 to 280 has no test and patches the
word at bytes 33 and 34 of the 34-byte buffer. -/
theorem doit_reloc_last_byte_outOfBounds :
    readMZ false lastByteFile = some scenario3MZ ∧ ValidHeader false scenario3MZ ∧
    relocTable false lastByteFile scenario3MZ = [{ off := 0x21, seg := 0 }] ∧
    (derivedSize false scenario3MZ).toNat ≤ linearPos false { off := 0x21, seg := 0 } + 1 ∧
    doit (plainEnv false lastByteFile 0x1000) = .outOfBounds := by
  decide

/-- The same on every input: when the table that was loaded holds an entry with
`p + 1 ≥ S`, the conversion runs into an access outside the image buffer and
does not return. -/
theorem doit_reloc_outside (env : Env) (f : List Byte) (mz : MZ)
    (hsrc : env.srcFile = some f) (hmz : readMZ env.bigEndian f = some mz)
    (hvalid : ValidHeader env.bigEndian mz)
    (hrel : 0 < endianize env.bigEndian mz.relocs)
    (hip : endianize env.bigEndian mz.ip = 0)
    (hseg : 0 ≤ env.relseg)
    (hcnt : endianize env.bigEndian mz.relocs ≤ (relocTable env.bigEndian f mz).length)
    (hout : ∃ x ∈ relocTable env.bigEndian f mz,
      (derivedSize env.bigEndian mz).toNat ≤ linearPos env.bigEndian x + 1)
    (hmem : env.mallocOk (derivedSize env.bigEndian mz).toNat = true)
    (hmemrl : env.mallocOk (endianize env.bigEndian mz.relocs * 4) = true) :
    doit env = .outOfBounds := by
  rw [doit_of_header env f mz hsrc hmz, afterHeader_of_valid env f mz hmz hvalid (Or.inl hip) hmem]
  unfold relocateAndWrite
  rw [loadRelocs_of_table env f mz hmz (Nat.pos_iff_ne_zero.mp hrel) hip hseg hmemrl hcnt]
  apply convert_of_table_outside
  apply applyRelocs_outside
  obtain ⟨x, hx, hl⟩ := hout
  exact ⟨x, hx, by rw [loadImage_length, relocOffset_eq]; exact hl⟩

/-! ## C10: the order of the table -/

/-- Claim C10 as stated fails when two windows share one byte.  On the image
`01 00 00` with `relseg = 0xFF`, the entries at positions 0 and 1 (both inside
the image) give `00 00 01` in this order and `00 00 00` in the other: the carry
out of the first byte reaches the second only when the window at 0 comes
last. -/
theorem applyRelocs_perm_counterexample :
    List.Perm [({ off := 0, seg := 0 } : RL), { off := 1, seg := 0 }]
      [{ off := 1, seg := 0 }, { off := 0, seg := 0 }] ∧
    (∀ x ∈ [({ off := 0, seg := 0 } : RL), { off := 1, seg := 0 }],
      linearPos false x + 1 < ([1, 0, 0] : List Byte).length) ∧
    applyRelocs false 0xFF [{ off := 0, seg := 0 }, { off := 1, seg := 0 }] [1, 0, 0]
      = some [0, 0, 1] ∧
    applyRelocs false 0xFF [{ off := 1, seg := 0 }, { off := 0, seg := 0 }] [1, 0, 0]
      = some [0, 0, 0] ∧
    applyRelocs false 0xFF [{ off := 0, seg := 0 }, { off := 1, seg := 0 }] [1, 0, 0] ≠
      applyRelocs false 0xFF [{ off := 1, seg := 0 }, { off := 0, seg := 0 }] [1, 0, 0] := by
  refine ⟨List.Perm.swap _ _ _, by decide, by decide, by decide, by decide⟩

/-- Claim C10, amended.  For every image, every `relseg`, every table whose
entries all address windows inside the image and in which no two entries
address positions that differ by exactly one (any two windows are the same or
share no byte), and every permutation of the table: the loop applied to the
permuted table yields the same patched image as applied to the table itself. -/
theorem applyRelocs_perm (be : Bool) (relseg : Int) (tbl tbl1 : List RL) (buf : List Byte)
    (hperm : List.Perm tbl tbl1)
    (hin : ∀ x ∈ tbl, linearPos be x + 1 < buf.length)
    (hsep : ∀ x ∈ tbl, ∀ y ∈ tbl, linearPos be x ≠ linearPos be y + 1) :
    applyRelocs be relseg tbl1 buf = applyRelocs be relseg tbl buf ∧
    ∃ out, applyRelocs be relseg tbl buf = some out ∧ out.length = buf.length := by
  have hin0 : ∀ x ∈ tbl, relocOffset be x + 1 < buf.length :=
    fun x hx => by rw [relocOffset_eq]; exact hin x hx
  have hin1 : ∀ x ∈ tbl1, relocOffset be x + 1 < buf.length :=
    fun x hx => hin0 x (hperm.symm.subset hx)
  refine ⟨?_, ?_⟩
  · rw [applyRelocs_eq_foldl be relseg tbl buf hin0, applyRelocs_eq_foldl be relseg tbl1 buf hin1]
    congr 1
    refine (List.Perm.foldl_eq' hperm ?_ buf).symm
    intro x hx y hy z
    by_cases hxy : relocOffset be x = relocOffset be y
    · rw [hxy]
    · have h1 := hsep x hx y hy
      have h2 := hsep y hy x hx
      rw [← relocOffset_eq, ← relocOffset_eq] at h1 h2
      exact patchLE_comm relseg z _ _ (by omega)
  · obtain ⟨out, h1, h2, -⟩ := applyRelocs_frame be relseg tbl buf hin0
    exact ⟨out, h1, h2⟩

/-- Witness of `applyRelocs_perm`: a table that names position 0 twice and
position 2 once, in two orders, on a big-endian host. -/
theorem applyRelocs_perm_witness :
    applyRelocs true 0xFF
        [{ off := 0x0200, seg := 0 }, { off := 0, seg := 0 }, { off := 0, seg := 0 }]
        [1, 2, 3, 4] =
      applyRelocs true 0xFF
        [{ off := 0, seg := 0 }, { off := 0x0200, seg := 0 }, { off := 0, seg := 0 }]
        [1, 2, 3, 4] :=
  (applyRelocs_perm true 0xFF
    [{ off := 0, seg := 0 }, { off := 0x0200, seg := 0 }, { off := 0, seg := 0 }]
    [{ off := 0x0200, seg := 0 }, { off := 0, seg := 0 }, { off := 0, seg := 0 }]
    [1, 2, 3, 4] (List.Perm.swap _ _ _) (by decide) (by decide)).1

/-! ## C11: the two conversions between disk order and host order -/

/-- Claim C11.  On either host byte order: `endianize` maps the value the host
holds for the bytes `b0`, `b1` of the disk to `b0 + 256*b1`; `unendianize` maps
a 16-bit value `v` to the value the host holds for the bytes `v mod 256`,
`v div 256`; and on 16-bit values each undoes the other. -/
theorem endianize_unendianize (be : Bool) (b0 b1 : Byte) (v x : Nat)
    (hv : v < 65536) (hx : x < 65536) :
    endianize be (hostWord be b0.val b1.val) = b0.val + 256 * b1.val ∧
    unendianize be v = hostWord be (v % 256) (v / 256) ∧
    memBytes be (unendianize be v) = (v % 256, v / 256) ∧
    endianize be (unendianize be v) = v ∧
    unendianize be (endianize be x) = x := by
  have hd : v / 256 % 256 = v / 256 := Nat.mod_eq_of_lt (by omega)
  have hu : unendianize be v = hostWord be (v % 256) (v / 256) := by
    rw [unendianize_eq, hd]
  refine ⟨endianize_hostWord be _ _ b0.isLt b1.isLt, hu, ?_, ?_, ?_⟩
  · rw [hu]
    exact memBytes_hostWord be _ _ (Nat.mod_lt _ (by decide)) (by omega)
  · rw [hu, endianize_hostWord be _ _ (Nat.mod_lt _ (by decide)) (by omega)]
    omega
  · have hm : hostWord be (memBytes be x).1 (memBytes be x).2 = x := by
      unfold hostWord memBytes
      cases be <;> simp only [Bool.false_eq_true, if_false, if_true] <;> omega
    have h1 : (memBytes be x).1 < 256 := by
      unfold memBytes; cases be <;> simp only [Bool.false_eq_true, if_false, if_true] <;> omega
    have h2 : (memBytes be x).2 < 256 := by
      unfold memBytes; cases be <;> simp only [Bool.false_eq_true, if_false, if_true] <;> omega
    generalize (memBytes be x).1 = a at *
    generalize (memBytes be x).2 = b at *
    rw [← hm, endianize_hostWord be a b h1 h2, unendianize_eq]
    have e1 : (a + 256 * b) % 256 = a := by omega
    have e2 : (a + 256 * b) / 256 % 256 = b := by omega
    rw [e1, e2]

/-- Witness of `endianize_unendianize`: the bytes `4D 5A` on a big-endian host,
and the values `0x1234` and `0x0100`. -/
theorem endianize_unendianize_witness :
    endianize true (hostWord true 0x4D 0x5A) = 0x4D + 256 * 0x5A ∧
    unendianize true 0x1234 = hostWord true 0x34 0x12 ∧
    memBytes true (unendianize true 0x1234) = (0x34, 0x12) ∧
    endianize true (unendianize true 0x1234) = 0x1234 ∧
    unendianize true (endianize true 0x0100) = 0x0100 :=
  endianize_unendianize true 0x4D 0x5A 0x1234 0x0100 (by decide) (by decide)

/-! ## C12: the header read -/

theorem fieldAt_take (be : Bool) (f : List Byte) (i : Nat) (hi : i + 1 < sizeofMZ) :
    fieldAt be (f.take sizeofMZ) i = fieldAt be f i := by
  unfold fieldAt
  simp only [List.getD_eq_getElem?_getD]
  rw [List.getElem?_take_of_lt (by omega), List.getElem?_take_of_lt hi]

/-- The header depends on the first 30 bytes of the file only. -/
theorem readMZ_take (be : Bool) (f : List Byte) (h : sizeofMZ ≤ f.length) :
    readMZ be (f.take sizeofMZ) = readMZ be f := by
  have hl : (f.take sizeofMZ).length = sizeofMZ := by
    rw [List.length_take]; exact Nat.min_eq_left h
  unfold readMZ
  rw [hl]
  simp only [Nat.lt_irrefl, if_false, Nat.not_lt.mpr h]
  rw [fieldAt_take be f 0 (by decide), fieldAt_take be f 2 (by decide),
    fieldAt_take be f 4 (by decide), fieldAt_take be f 6 (by decide),
    fieldAt_take be f 8 (by decide), fieldAt_take be f 10 (by decide),
    fieldAt_take be f 12 (by decide), fieldAt_take be f 14 (by decide),
    fieldAt_take be f 16 (by decide), fieldAt_take be f 18 (by decide),
    fieldAt_take be f 20 (by decide), fieldAt_take be f 22 (by decide),
    fieldAt_take be f 24 (by decide), fieldAt_take be f 26 (by decide),
    fieldAt_take be f 28 (by decide)]

/-- Claim C12 as stated fails: `header28File` holds 28 bytes, the header of
scenario 1 up to the overlay number, and the conversion ends at the header read
with code 4.  The read asks for one record of `sizeof(struct MZ)` bytes, and the
record has fifteen 16-bit fields. -/
theorem doit_header_read_counterexample :
    header28File.length = 28 ∧ sizeofMZ = 30 ∧
    doit (plainEnv false header28File (-1)) = .ret 4 [.headerRead] none := by
  decide

/-- Claim C12, amended.  The header read consumes exactly the first 30 bytes of
the source: `doit` returns 4 with the diagnostic of the header read exactly when
the source holds fewer than 30 bytes, and with a source of at least 30 bytes it
goes on to the tests with a header that its first 30 bytes determine. -/
theorem doit_header_read (env : Env) (f : List Byte) (hsrc : env.srcFile = some f) :
    (doit env = .ret 4 [.headerRead] none ↔ f.length < 30) ∧
    (30 ≤ f.length → ∃ mz, readMZ env.bigEndian f = some mz ∧
      readMZ env.bigEndian (f.take 30) = some mz ∧ doit env = afterHeader env f mz) := by
  have hsome : 30 ≤ f.length → ∃ mz, readMZ env.bigEndian f = some mz ∧
      readMZ env.bigEndian (f.take 30) = some mz ∧ doit env = afterHeader env f mz := by
    intro h
    have hs : (readMZ env.bigEndian f).isSome := (readMZ_isSome_iff _ _).mpr h
    obtain ⟨mz, hmz⟩ := Option.isSome_iff_exists.mp hs
    exact ⟨mz, hmz, by rw [← hmz]; exact readMZ_take env.bigEndian f h,
      doit_of_header env f mz hsrc hmz⟩
  refine ⟨⟨?_, ?_⟩, hsome⟩
  · intro hd
    by_contra hlen
    obtain ⟨mz, -, -, hdo⟩ := hsome (Nat.le_of_not_lt hlen)
    rw [hdo] at hd
    rcases afterHeader_ends env f mz with ⟨c, d, h, -, hne, -⟩ | h | ⟨m, h⟩ | ⟨m, d, h⟩ |
      ⟨d, h⟩ | ⟨d, h⟩ <;> rw [h] at hd
    · simp only [Outcome.ret.injEq, List.cons.injEq, and_true] at hd
      exact hne hd.2
    · simp at hd
    · simp at hd
    · simp at hd
    · simp at hd
    · simp at hd
  · intro hlen
    have hn : readMZ env.bigEndian f = none := by
      unfold readMZ
      simp only [sizeofMZ, hlen, if_true]
    unfold doit
    simp only [hsrc, hn]

/-- Witness of `doit_header_read`: the 30 bytes of a header alone are enough for
the header read; that conversion ends at the signature test. -/
theorem doit_header_read_witness :
    zmFile.length = 30 ∧ doit (plainEnv false zmFile (-1)) ≠ .ret 4 [.headerRead] none :=
  ⟨by decide, fun h =>
    absurd ((doit_header_read (plainEnv false zmFile (-1)) zmFile rfl).1.mp h) (by decide)⟩

/-! ## C13: the relocation table read -/

theorem readRL_length (be : Bool) (bytes : List Byte) (n : Nat) :
    (readRL be bytes n).length = min n (bytes.length / 4) := by
  induction n generalizing bytes with
  | zero => simp [readRL]
  | succ n ih =>
    match bytes with
    | [] => simp [readRL]
    | [_] => simp [readRL]
    | [_, _] => simp [readRL]
    | [_, _, _] => simp [readRL]
    | b0 :: b1 :: b2 :: b3 :: rest =>
      simp only [readRL, List.length_cons, ih]
      omega

theorem word16At_cons4 (b0 b1 b2 b3 : Byte) (rest : List Byte) (k : Nat) :
    word16At (b0 :: b1 :: b2 :: b3 :: rest) (k + 4) = word16At rest k := by
  unfold word16At
  rfl

theorem readRL_getElem? (be : Bool) (bytes : List Byte) (n i : Nat)
    (hi : i < min n (bytes.length / 4)) :
    ((readRL be bytes n)[i]?).map (decodeRL be) =
      some (word16At bytes (4 * i), word16At bytes (4 * i + 2)) := by
  induction n generalizing bytes i with
  | zero => omega
  | succ n ih =>
    match bytes with
    | [] => simp only [List.length_nil] at hi; omega
    | [_] => simp only [List.length_cons, List.length_nil] at hi; omega
    | [_, _] => simp only [List.length_cons, List.length_nil] at hi; omega
    | [_, _, _] => simp only [List.length_cons, List.length_nil] at hi; omega
    | b0 :: b1 :: b2 :: b3 :: rest =>
      cases i with
      | zero =>
        simp only [readRL, List.getElem?_cons_zero, Option.map_some', decodeRL,
          endianize_hostWord be _ _ (Fin.isLt _) (Fin.isLt _)]
        rfl
      | succ j =>
        have hj : j < min n (rest.length / 4) := by
          simp only [List.length_cons] at hi
          omega
        simp only [readRL, List.getElem?_cons_succ]
        rw [ih rest j hj]
        have e1 : 4 * (j + 1) = 4 * j + 4 := by ring
        have e2 : 4 * j + 4 + 2 = (4 * j + 2) + 4 := by ring
        rw [e1, e2, word16At_cons4, word16At_cons4]

theorem word16At_drop (f : List Byte) (p k : Nat) :
    word16At (f.drop p) k = word16At f (p + k) := by
  unfold word16At
  simp only [List.getD_eq_getElem?_getD, List.getElem?_drop]
  rfl

/-- The table read from a file that holds it whole: its decoded records are the
little-endian pairs of the file, in order. -/
theorem relocTable_decoded (be : Bool) (f : List Byte) (mz : MZ)
    (h : endianize be mz.relocs ≤ (f.length - endianize be mz.relocptr) / 4) :
    (relocTable be f mz).length = endianize be mz.relocs ∧
    (relocTable be f mz).map (decodeRL be) =
      specEntries f (endianize be mz.relocptr) (endianize be mz.relocs) := by
  have hl : (relocTable be f mz).length = endianize be mz.relocs := by
    unfold relocTable
    rw [readRL_length, List.length_drop]
    exact Nat.min_eq_left h
  refine ⟨hl, ?_⟩
  apply List.ext_getElem?
  intro i
  unfold specEntries
  simp only [List.getElem?_map, List.getElem?_range]
  by_cases hi : i < endianize be mz.relocs
  · have := readRL_getElem? be (f.drop (endianize be mz.relocptr)) (endianize be mz.relocs) i
      (by rw [List.length_drop]; omega)
    unfold relocTable
    rw [this, word16At_drop, word16At_drop]
    simp [List.getElem?_range hi, Nat.add_assoc]
  · rw [List.getElem?_eq_none (by rw [hl]; omega),
      List.getElem?_eq_none (by rw [List.length_range]; omega)]
    rfl

/-- The relocation loop of the source does what the specification says of the
decoded entries, in table order, on either host. -/
theorem applyRelocs_eq_specApply (be : Bool) (relseg : Int) (tbl : List RL) (buf : List Byte) :
    applyRelocs be relseg tbl buf = specApply relseg (tbl.map (decodeRL be)) buf := by
  induction tbl generalizing buf with
  | nil => rfl
  | cons e rest ih =>
    have hp : relocOffset be e = endianize be e.seg * 16 + endianize be e.off := relocOffset_eq be e
    simp only [applyRelocs, List.map_cons, decodeRL, specApply, hp, patch_eq_patchLE]
    split
    · rw [← ih]
    · rfl

/-- The image stage with a table and entry point 0, the loop running to its
end. -/
theorem convert_of_table (env : Env) (f : List Byte) (mz : MZ) (s : Nat)
    (tbl : List RL) (out : List Byte)
    (hip : endianize env.bigEndian mz.ip = 0)
    (happly : applyRelocs env.bigEndian env.relseg tbl (loadImage env f mz s) = some out)
    (hopen : env.tgtOpens = true) (hroom : s ≤ env.tgtRoom) :
    convert env f mz s (some tbl) =
      .ret (if f.length - imageStart env.bigEndian mz < s then 4 else 0)
        (if f.length - imageStart env.bigEndian mz < s then [.shortRead] else []) (some out) := by
  have hs : endianize env.bigEndian mz.hdrlen <<< 4 = imageStart env.bigEndian mz := by
    rw [Nat.shiftLeft_eq]; rfl
  have hol : out.length = s := by
    rw [applyRelocs_length _ _ _ _ _ happly, loadImage_length]
  have hr : ((f.drop (imageStart env.bigEndian mz)).take s).length < s ↔
      f.length - imageStart env.bigEndian mz < s := by
    rw [List.length_take, List.length_drop]; omega
  have hc : decide ((0 : Nat) = 0x0100) = false := by decide
  unfold convert
  simp only [hip, happly, hs, hc]
  rw [writeOut_flat env s _ _ out hol hopen hroom]
  by_cases h : f.length - imageStart env.bigEndian mz < s
  · simp only [hr.mpr h, h, if_true]
  · simp only [mt hr.mp h, h, if_false]

/-- Claim C13.  For a valid header with `relocationCount > 0`, `initialIP = 0`
and `relseg ≥ 0` (both buffers being allocated): when the source holds fewer than
`relocationCount` complete 4-byte records from byte `relocationTableOffset` on,
`doit` returns 4 with the diagnostic of the table read and has neither touched
the image nor opened the destination; when it holds them all, the table `rl`
has `relocationCount` records whose decoded fields are the little-endian pairs
of the file in table order, and `doit` goes on to the image and the relocation
loop with exactly this table.  The loop does to every buffer what the
specification says of those pairs taken in table order; so what `doit` returns
and writes is fixed by that: an access outside the buffer when a pair is out of
range, else (the destination opening and taking `S` bytes) the image buffer
after the relocation of those pairs in table order, with return value 4 after
a short image read and 0 otherwise. -/
theorem doit_reloc_table (env : Env) (f : List Byte) (mz : MZ)
    (hsrc : env.srcFile = some f) (hmz : readMZ env.bigEndian f = some mz)
    (hvalid : ValidHeader env.bigEndian mz)
    (hrel : 0 < endianize env.bigEndian mz.relocs)
    (hip : endianize env.bigEndian mz.ip = 0)
    (hseg : 0 ≤ env.relseg)
    (hmem : env.mallocOk (derivedSize env.bigEndian mz).toNat = true)
    (hmemrl : env.mallocOk (endianize env.bigEndian mz.relocs * 4) = true) :
    ((f.length - endianize env.bigEndian mz.relocptr) / 4 < endianize env.bigEndian mz.relocs →
      doit env = .ret 4 [.relocRead] none) ∧
    (endianize env.bigEndian mz.relocs ≤ (f.length - endianize env.bigEndian mz.relocptr) / 4 →
      loadRelocs env f mz = .ok (some (relocTable env.bigEndian f mz)) ∧
      (relocTable env.bigEndian f mz).length = endianize env.bigEndian mz.relocs ∧
      (relocTable env.bigEndian f mz).map (decodeRL env.bigEndian) =
        specEntries f (endianize env.bigEndian mz.relocptr) (endianize env.bigEndian mz.relocs) ∧
      doit env = convert env f mz (derivedSize env.bigEndian mz).toNat
        (some (relocTable env.bigEndian f mz)) ∧
      (∀ buf, applyRelocs env.bigEndian env.relseg (relocTable env.bigEndian f mz) buf =
        specApply env.relseg
          (specEntries f (endianize env.bigEndian mz.relocptr)
            (endianize env.bigEndian mz.relocs)) buf) ∧
      (specApply env.relseg
          (specEntries f (endianize env.bigEndian mz.relocptr)
            (endianize env.bigEndian mz.relocs))
          (loadImage env f mz (derivedSize env.bigEndian mz).toNat) = none →
        doit env = .outOfBounds) ∧
      (env.tgtOpens = true → (derivedSize env.bigEndian mz).toNat ≤ env.tgtRoom →
        ∀ out, specApply env.relseg
            (specEntries f (endianize env.bigEndian mz.relocptr)
              (endianize env.bigEndian mz.relocs))
            (loadImage env f mz (derivedSize env.bigEndian mz).toNat) = some out →
          doit env =
            .ret (if f.length - imageStart env.bigEndian mz <
                (derivedSize env.bigEndian mz).toNat then 4 else 0)
              (if f.length - imageStart env.bigEndian mz <
                (derivedSize env.bigEndian mz).toNat then [.shortRead] else [])
              (some out)) ∧
      (imageStart env.bigEndian mz + (derivedSize env.bigEndian mz).toNat ≤ f.length →
        (specApply env.relseg
            (specEntries f (endianize env.bigEndian mz.relocptr)
              (endianize env.bigEndian mz.relocs))
            (sourceImage env.bigEndian f mz) = none →
          doit env = .outOfBounds) ∧
        (env.tgtOpens = true → (derivedSize env.bigEndian mz).toNat ≤ env.tgtRoom →
          ∀ out, specApply env.relseg
              (specEntries f (endianize env.bigEndian mz.relocptr)
                (endianize env.bigEndian mz.relocs))
              (sourceImage env.bigEndian f mz) = some out →
            doit env = .ret 0 [] (some out)))) := by
  obtain ⟨-, -, -, hrl, -, -, -, hip', -⟩ := readMZ_lt _ _ _ hmz
  have hd : doit env = relocateAndWrite env f mz (derivedSize env.bigEndian mz).toNat := by
    rw [doit_of_header env f mz hsrc hmz,
      afterHeader_of_valid env f mz hmz hvalid (Or.inl hip) hmem]
  refine ⟨?_, ?_⟩
  · intro hshort
    have hr0 : mz.relocs ≠ 0 := fun h => by
      rw [(endianize_eq_zero_iff _ _ hrl).mpr h] at hrel; exact Nat.lt_irrefl 0 hrel
    have hi0 : mz.ip = 0 := (endianize_eq_zero_iff _ _ hip').mp hip
    have h4 : endianize env.bigEndian mz.relocs <<< 2 = endianize env.bigEndian mz.relocs * 4 := by
      rw [Nat.shiftLeft_eq]
    have hlen : (relocTable env.bigEndian f mz).length < endianize env.bigEndian mz.relocs := by
      unfold relocTable
      rw [readRL_length, List.length_drop]
      omega
    rw [hd]
    unfold relocateAndWrite loadRelocs
    simp only [hr0, hi0, ne_eq, not_false_eq_true, if_true, not_true_eq_false, if_false,
      Int.not_lt.mpr hseg, h4, hmemrl, Bool.not_true, Bool.false_eq_true, hlen]
  · intro hfull
    obtain ⟨hl, hdec⟩ := relocTable_decoded env.bigEndian f mz hfull
    have hload := loadRelocs_of_table env f mz hmz (Nat.pos_iff_ne_zero.mp hrel) hip hseg hmemrl
      (le_of_eq hl.symm)
    have hconv : doit env = convert env f mz (derivedSize env.bigEndian mz).toNat
        (some (relocTable env.bigEndian f mz)) := by
      rw [hd]
      unfold relocateAndWrite
      rw [hload]
    have hspec : ∀ buf, applyRelocs env.bigEndian env.relseg (relocTable env.bigEndian f mz) buf =
        specApply env.relseg
          (specEntries f (endianize env.bigEndian mz.relocptr)
            (endianize env.bigEndian mz.relocs)) buf := by
      intro buf
      rw [applyRelocs_eq_specApply, hdec]
    have hnone : specApply env.relseg
          (specEntries f (endianize env.bigEndian mz.relocptr)
            (endianize env.bigEndian mz.relocs))
          (loadImage env f mz (derivedSize env.bigEndian mz).toNat) = none →
        doit env = .outOfBounds := by
      intro h
      rw [hconv]
      exact convert_of_table_outside env f mz _ _ (by rw [hspec]; exact h)
    have hsome : env.tgtOpens = true → (derivedSize env.bigEndian mz).toNat ≤ env.tgtRoom →
        ∀ out, specApply env.relseg
            (specEntries f (endianize env.bigEndian mz.relocptr)
              (endianize env.bigEndian mz.relocs))
            (loadImage env f mz (derivedSize env.bigEndian mz).toNat) = some out →
          doit env =
            .ret (if f.length - imageStart env.bigEndian mz <
                (derivedSize env.bigEndian mz).toNat then 4 else 0)
              (if f.length - imageStart env.bigEndian mz <
                (derivedSize env.bigEndian mz).toNat then [.shortRead] else [])
              (some out) := by
      intro hopen hroom out h
      rw [hconv]
      exact convert_of_table env f mz _ _ out hip (by rw [hspec]; exact h) hopen hroom
    refine ⟨hload, hl, hdec, hconv, hspec, hnone, hsome, ?_⟩
    intro hlen
    have himg : loadImage env f mz (derivedSize env.bigEndian mz).toNat =
        sourceImage env.bigEndian f mz :=
      (loadImage_full env f mz _ hlen).1
    have hns : ¬ (f.length - imageStart env.bigEndian mz < (derivedSize env.bigEndian mz).toNat) := by
      omega
    rw [← himg]
    refine ⟨hnone, ?_⟩
    intro hopen hroom out h
    have := hsome hopen hroom out h
    simpa only [hns, if_false] using this

/-- Witness of `doit_reloc_table`: scenario 3 of the specification, whose table
of one record the file holds whole; the same file without its last byte; and
`orderFile`, whose two entries share a byte, with its table in both orders: the
output is that of the entries taken in the order of the file. -/
theorem doit_reloc_table_witness :
    (relocTable false scenario3File scenario3MZ).map (decodeRL false) = [(0x10, 0)] ∧
    doit (plainEnv false scenario3File 0x1000) =
      convert (plainEnv false scenario3File 0x1000) scenario3File scenario3MZ 34
        (some (relocTable false scenario3File scenario3MZ)) ∧
    doit (plainEnv false scenario3File.dropLast 0x1000) = .ret 4 [.relocRead] none ∧
    doit (plainEnv false orderFile 0xFF) =
      .ret 0 [] (some ([0, 0, 1] ++ List.replicate 31 0x90)) ∧
    doit (plainEnv false orderFileSwapped 0xFF) =
      .ret 0 [] (some ([0, 0, 0] ++ List.replicate 31 0x90)) :=
  ⟨((doit_reloc_table (plainEnv false scenario3File 0x1000) scenario3File scenario3MZ rfl
      (by decide) (by decide) (by decide) (by decide) (by decide) rfl rfl).2 (by decide)).2.2.1,
   ((doit_reloc_table (plainEnv false scenario3File 0x1000) scenario3File scenario3MZ rfl
      (by decide) (by decide) (by decide) (by decide) (by decide) rfl rfl).2 (by decide)).2.2.2.1,
   (doit_reloc_table (plainEnv false scenario3File.dropLast 0x1000) scenario3File.dropLast
      scenario3MZ rfl (by decide) (by decide) (by decide) (by decide) (by decide) rfl rfl).1
      (by decide),
   (((doit_reloc_table (plainEnv false orderFile 0xFF) orderFile twiceMZ rfl
      (by decide) (by decide) (by decide) (by decide) (by decide) rfl rfl).2
      (by decide)).2.2.2.2.2.2.2 (by decide)).2 rfl (by decide) _ (by decide),
   (((doit_reloc_table (plainEnv false orderFileSwapped 0xFF) orderFileSwapped twiceMZ rfl
      (by decide) (by decide) (by decide) (by decide) (by decide) rfl rfl).2
      (by decide)).2.2.2.2.2.2.2 (by decide)).2 rfl (by decide) _ (by decide)⟩

/-! ## C14: the destination after a format error -/

/-- Claim C14.  Whenever `doit` returns 5, 6 or 7, or returns with the diagnostic
of the relocation table read, the destination has not been opened: nothing was
created, truncated or written. -/
theorem doit_format_error_dst (env : Env) (c : Nat) (msgs : List Diag)
    (dst : Option (List Byte)) (h : doit env = .ret c msgs dst)
    (hc : c = 5 ∨ c = 6 ∨ c = 7 ∨ msgs = [.relocRead]) :
    dst = none := by
  have key : ∀ f mz, afterHeader env f mz = .ret c msgs dst → dst = none := by
    intro f mz ha
    rcases afterHeader_ends env f mz with ⟨c1, d1, h1, -, -, -⟩ | h1 | ⟨m, h1⟩ | ⟨m, d, h1⟩ |
      ⟨d, h1⟩ | ⟨d, h1⟩ <;> rw [h1] at ha
    · injection ha with _ _ hd
      exact hd.symm
    · exact absurd ha (by simp)
    · injection ha with _ _ hd
      exact hd.symm
    · injection ha with h8 hm _
      rcases hc with h5 | h5 | h5 | h5
      · omega
      · omega
      · omega
      · rw [h5] at hm
        cases m with
        | nil => simp at hm
        | cons a t => cases t <;> simp at hm
    · injection ha with h0 hm _
      rcases hc with h5 | h5 | h5 | h5
      · omega
      · omega
      · omega
      · rw [h5] at hm
        simp at hm
    · injection ha with h4 hm _
      rcases hc with h5 | h5 | h5 | h5
      · omega
      · omega
      · omega
      · rw [h5] at hm
        simp at hm
  unfold doit at h
  split at h
  · injection h with _ _ hd
    exact hd.symm
  · split at h
    · injection h with _ _ hd
      exact hd.symm
    · exact key _ _ h

/-- Witness of `doit_format_error_dst`: the rejection of a header whose size is
`0x10000`. -/
theorem doit_format_error_dst_witness :
    doit (plainEnv false overSizeFile (-1)) = .ret 6 [.tooLarge] none ∧
    (none : Option (List Byte)) = none :=
  ⟨by decide, doit_format_error_dst (plainEnv false overSizeFile (-1)) 6 [.tooLarge] none
    (by decide) (Or.inr (Or.inl rfl))⟩

/-! ## C15: the switch `-r` -/

theorem hexDigit_isSome_toNat (c : Char) (h : (hexDigit c).isSome = true) :
    (48 ≤ c.toNat ∧ c.toNat ≤ 57) ∨ (97 ≤ c.toNat ∧ c.toNat ≤ 102) ∨
      (65 ≤ c.toNat ∧ c.toNat ≤ 70) := by
  unfold hexDigit at h
  split at h
  · left; assumption
  · split at h
    · right; left; assumption
    · split at h
      · right; right; assumption
      · simp at h

/-- On a run of hexadecimal digits `strtol` yields the number the run denotes,
or `longMax` when that is smaller. -/
theorem strtol_of_digits (longMax : Nat) (ds : List Char)
    (h : ∀ c ∈ ds, (hexDigit c).isSome = true) :
    strtol longMax ds = min (hexValue ds : Int) (longMax : Int) := by
  have hsp : ds.dropWhile isspace = ds := by
    cases ds with
    | nil => rfl
    | cons c t =>
      have hc := hexDigit_isSome_toNat c (h c (List.mem_cons_self _ _))
      have : isspace c = false := by
        unfold isspace
        simp only [Bool.or_eq_false_iff, decide_eq_false_iff_not, Bool.and_eq_false_iff]
        omega
      simp only [List.dropWhile_cons, this, Bool.false_eq_true, if_false]
  have hsg : strtolSign ds = (false, ds) := by
    cases ds with
    | nil => rfl
    | cons c t =>
      have hc := hexDigit_isSome_toNat c (h c (List.mem_cons_self _ _))
      have h1 : c ≠ '-' := fun e => by subst e; revert hc; decide
      have h2 : c ≠ '+' := fun e => by subst e; revert hc; decide
      simp only [strtolSign, h1, h2, if_false]
  have hmk : strtolRadixMark ds = ds := by
    match ds, h with
    | [], _ => rfl
    | [_], _ => rfl
    | [_, _], _ => rfl
    | z :: x :: d :: rest, h =>
      have hx := hexDigit_isSome_toNat x (h x (by simp))
      have h1 : x ≠ 'x' := fun e => by subst e; revert hx; decide
      have h2 : x ≠ 'X' := fun e => by subst e; revert hx; decide
      simp only [strtolRadixMark, h1, h2, or_self, false_and, and_false, if_false]
  have htw : ds.takeWhile (fun c => (hexDigit c).isSome) = ds := by
    rw [List.takeWhile_eq_self_iff]
    exact h
  unfold strtol
  simp only [hsp, hsg, hmk, htw, Bool.false_eq_true, if_false]

/-- Claim C15 as stated fails for a value that cannot be parsed: `strtol` is
called without an end pointer and yields 0 for `zz`, which holds no hexadecimal
digit; the test `relseg<0` lets 0 pass, and the conversion of scenario 3 is
carried out with relocation segment 0 and returns 0, not 1. -/
theorem main_switch_r_counterexample :
    hexDigit 'z' = none ∧ strtol (2 ^ 63 - 1) ['z', 'z'] = 0 ∧
    main (2 ^ 63 - 1) { switches := [.r ['z', 'z']], operands := 2 }
        (plainEnv false scenario3File (-1)) =
      doit (plainEnv false scenario3File 0) ∧
    main (2 ^ 63 - 1) { switches := [.r ['z', 'z']], operands := 2 }
        (plainEnv false scenario3File (-1)) =
      .ret 0 [] (some image34) := by
  decide

/-- Claim C15, amended.  The value of `-r` is read by `strtol` in base 16 (a run
of hexadecimal digits yields the number it denotes, at most `LONG_MAX`).  When
the result is negative `main` returns 1 with the diagnostic of line 329, whatever
follows on the command line, and `doit` is not called; when the result is not
negative, it is the relocation segment with which `doit` is called. -/
theorem main_switch_r (longMax : Nat) (optarg : List Char) (rest : List Getopt)
    (operands : Nat) (world : Env) :
    (strtol longMax optarg < 0 →
      main longMax { switches := .r optarg :: rest, operands := operands } world =
        .ret 1 [.invalidRelocation] none) ∧
    (0 ≤ strtol longMax optarg →
      main longMax { switches := [.r optarg], operands := 2 } world =
        doit { world with relseg := strtol longMax optarg }) ∧
    ((∀ c ∈ optarg, (hexDigit c).isSome = true) →
      strtol longMax optarg = min (hexValue optarg : Int) (longMax : Int) ∧
      0 ≤ strtol longMax optarg) := by
  refine ⟨?_, ?_, ?_⟩
  · intro h
    simp only [main, switchLoop, h, if_true]
  · intro h
    simp only [main, switchLoop, Int.not_lt.mpr h, if_false, ne_eq, not_true_eq_false]
  · intro h
    have hs := strtol_of_digits longMax optarg h
    refine ⟨hs, ?_⟩
    rw [hs]
    omega

/-- Witness of `main_switch_r`: `-r -1` is rejected, and `-r 1000` runs
scenario 3 with relocation segment `0x1000`. -/
theorem main_switch_r_witness :
    main (2 ^ 63 - 1) { switches := [.r ['-', '1']], operands := 2 }
        (plainEnv false scenario3File (-1)) = .ret 1 [.invalidRelocation] none ∧
    main (2 ^ 63 - 1) { switches := [.r ['1', '0', '0', '0']], operands := 2 }
        (plainEnv false scenario3File (-1)) =
      doit { plainEnv false scenario3File (-1) with
        relseg := strtol (2 ^ 63 - 1) ['1', '0', '0', '0'] } ∧
    strtol (2 ^ 63 - 1) ['1', '0', '0', '0'] = 0x1000 :=
  ⟨(main_switch_r (2 ^ 63 - 1) ['-', '1'] [] 2 (plainEnv false scenario3File (-1))).1 (by decide),
   (main_switch_r (2 ^ 63 - 1) ['1', '0', '0', '0'] [] 2
      (plainEnv false scenario3File (-1))).2.1 (by decide),
   by decide⟩

end Exereloc

namespace Convert
open Exereloc (Byte word16At)

/-! ## C16: the output of `convert` -/

theorem patchedHead_eq (l : Nat) :
    patchedHead l =
      [0xE9, Fin.ofNat ((l + 21) % 256), Fin.ofNat ((l + 21) / 256 % 256)] ++ head.drop 3 := by
  have h1 : (l + 21) &&& 0xFF = (l + 21) % 256 := Nat.and_pow_two_sub_one_eq_mod _ 8
  have h2 : ((l + 21) >>> 8) &&& 0xFF = (l + 21) / 256 % 256 := by
    rw [Nat.shiftRight_eq_div_pow]; exact Nat.and_pow_two_sub_one_eq_mod _ 8
  unfold patchedHead
  simp only [h1, h2]
  rfl

theorem patchedHead_length (l : Nat) : (patchedHead l).length = 16 := by
  rw [patchedHead_eq]; rfl

/-- Claim C16.  For an input of `l ≤ 65141` bytes (the output opening and taking
`l + 139` bytes) `main` returns 0 and the output is `head` with its bytes 1 and 2
holding `l + 21` little-endian, then the `l` input bytes, then `tail`: `l + 139`
bytes, at most `0xFF00`.  The jump at offset 0, opcode `0xE9` with displacement
`l + 21` counted from offset 3, leads to offset `l + 24`, which is byte 8 of
`tail`, the first after its eight zero bytes.  A longer input makes `main`
return 3 without opening the output. -/
theorem main_stub (w : World) (f : List Byte) (hargc : w.argc = 3)
    (hsrc : w.srcFile = some f) :
    (f.length ≤ 65141 → w.tgtOpens = true → f.length + 139 ≤ w.tgtRoom →
      main w = .ret 0 [] (some (patchedHead f.length ++ f ++ tail)) ∧
      (patchedHead f.length).length = 16 ∧
      (patchedHead f.length).getD 0 0 = 0xE9 ∧
      word16At (patchedHead f.length) 1 = f.length + 21 ∧
      (patchedHead f.length).drop 3 = head.drop 3 ∧
      (patchedHead f.length ++ f ++ tail).length = f.length + 139 ∧
      f.length + 139 ≤ 0xFF00 ∧
      3 + word16At (patchedHead f.length ++ f ++ tail) 1 = f.length + 24 ∧
      (patchedHead f.length ++ f ++ tail).getD (f.length + 24) 0 = tail.getD 8 0 ∧
      tail.take 8 = List.replicate 8 0 ∧ tail.getD 8 0 = 0xE8) ∧
    (65141 < f.length → main w = .ret 3 [.tooLarge] none) := by
  refine ⟨?_, ?_⟩
  · intro hl hopen hroom
    have hw : word16At (patchedHead f.length) 1 = f.length + 21 := by
      rw [patchedHead_eq]
      simp only [word16At, List.cons_append, List.nil_append, List.getD_cons_succ,
        List.getD_cons_zero, Fin.ofNat, Nat.succ_eq_add_one]
      omega
    have hw2 : word16At (patchedHead f.length ++ f ++ tail) 1 = f.length + 21 := by
      rw [← hw, patchedHead_eq]
      rfl
    refine ⟨?_, patchedHead_length _, by rw [patchedHead_eq]; rfl, hw,
      by rw [patchedHead_eq]; rfl, ?_, by omega, by rw [hw2]; omega, ?_, by decide, by decide⟩
    · unfold main writeAll
      have h1 : min 16 w.tgtRoom = 16 := Nat.min_eq_left (by omega)
      have h2 : min f.length (w.tgtRoom - 16) = f.length := Nat.min_eq_left (by omega)
      have h3 : min 123 (w.tgtRoom - 16 - f.length) = 123 := Nat.min_eq_left (by omega)
      simp only [hargc, hsrc, ne_eq, not_true_eq_false, if_false, gt_iff_lt,
        Nat.not_lt.mpr hl, List.take_length, Nat.lt_irrefl, hopen, Bool.not_true,
        Bool.false_eq_true, h1, h2, h3]
    · simp only [List.length_append, patchedHead_length]
      have : tail.length = 123 := rfl
      omega
    · rw [List.getD_eq_getElem?_getD, List.getD_eq_getElem?_getD,
        List.getElem?_append_right (by simp only [List.length_append, patchedHead_length]; omega)]
      simp only [List.length_append, patchedHead_length]
      have : f.length + 24 - (16 + f.length) = 8 := by omega
      rw [this]
  · intro hl
    unfold main
    simp only [hargc, hsrc, ne_eq, not_true_eq_false, if_false, gt_iff_lt, hl, if_true]

/-- Witness of `main_stub`: an input of two bytes, whose jump displacement is
23 and whose output has 141 bytes. -/
theorem main_stub_witness :
    main (plainWorld [0x90, 0xC3]) =
      .ret 0 [] (some (patchedHead 2 ++ [0x90, 0xC3] ++ tail)) ∧
    word16At (patchedHead 2) 1 = 23 ∧
    (patchedHead 2 ++ [0x90, 0xC3] ++ tail).length = 141 :=
  ⟨((main_stub (plainWorld [0x90, 0xC3]) [0x90, 0xC3] rfl rfl).1
      (by decide) rfl (by decide)).1,
   ((main_stub (plainWorld [0x90, 0xC3]) [0x90, 0xC3] rfl rfl).1
      (by decide) rfl (by decide)).2.2.2.1,
   ((main_stub (plainWorld [0x90, 0xC3]) [0x90, 0xC3] rfl rfl).1
      (by decide) rfl (by decide)).2.2.2.2.2.1⟩

end Convert

namespace Exereloc

/-! ## C17: the short image read -/

/-- The write stage on a buffer of `s` bytes that the byte count does not
leave. -/
theorem writeOut_eq (env : Env) (comovr : Bool) (s e : Nat) (msgs : List Diag) (buf : List Byte)
    (hlen : buf.length = s) (hs : s ≤ 0xFFFF) (hc : comovr = true → 0x0100 ≤ s) :
    writeOut env comovr s e msgs buf =
      if env.tgtOpens = false then .ret 3 (msgs ++ [.openTgt]) none
      else if env.tgtRoom < s - (if comovr = true then 0x0100 else 0) then
        .ret 8 (msgs ++ [.shortWrite])
          (some ((buf.drop (if comovr = true then 0x0100 else 0)).take env.tgtRoom))
      else .ret e msgs (some (buf.drop (if comovr = true then 0x0100 else 0))) := by
  have hcount : (if comovr = true then (s + 2 ^ 32 - 0x0100) % 2 ^ 32 else s) =
      s - (if comovr = true then 0x0100 else 0) := by
    cases comovr with
    | false => simp
    | true =>
      have := hc rfl
      simp only [if_true]
      omega
  have hle : (if comovr = true then 0x0100 else 0) ≤ s := by
    cases comovr with
    | false => simp
    | true => simpa using hc rfl
  unfold writeOut
  simp only [hcount]
  generalize (if comovr = true then 0x0100 else 0) = start at *
  by_cases ho : env.tgtOpens = true
  · have hfit : start + (s - start) ≤ buf.length := by omega
    simp only [ho, Bool.not_true, Bool.false_eq_true, if_false, hfit, if_true]
    by_cases hr : env.tgtRoom < s - start
    · have hm : min (s - start) env.tgtRoom = env.tgtRoom := Nat.min_eq_right (Nat.le_of_lt hr)
      simp only [hm, hr, if_true, Bool.true_eq_false, if_false]
    · have hm : min (s - start) env.tgtRoom = s - start := Nat.min_eq_left (Nat.le_of_not_lt hr)
      simp only [hm, Nat.lt_irrefl, if_false, hr, Bool.true_eq_false]
      rw [List.take_of_length_le (by rw [List.length_drop, hlen])]
  · have hf : env.tgtOpens = false := by simpa using ho
    simp only [hf, Bool.not_false, if_true]

/-- The buffer after a short read starts with the bytes the file supplied. -/
theorem loadImage_short (env : Env) (f : List Byte) (mz : MZ) (s : Nat)
    (h : f.length - imageStart env.bigEndian mz < s) :
    (loadImage env f mz s).take (f.length - imageStart env.bigEndian mz) =
      f.drop (imageStart env.bigEndian mz) ∧
    ((f.drop (endianize env.bigEndian mz.hdrlen <<< 4)).take s).length =
      f.length - imageStart env.bigEndian mz := by
  have hs : endianize env.bigEndian mz.hdrlen <<< 4 = imageStart env.bigEndian mz := by
    rw [Nat.shiftLeft_eq]; rfl
  have hg : (f.drop (imageStart env.bigEndian mz)).take s = f.drop (imageStart env.bigEndian mz) :=
    List.take_of_length_le (by rw [List.length_drop]; omega)
  unfold loadImage
  simp only [hs, hg, List.length_drop]
  refine ⟨?_, trivial⟩
  rw [List.take_append_of_le_length (by rw [List.length_drop])]
  exact List.take_of_length_le (by rw [List.length_drop])

set_option maxRecDepth 100000 in
/-- Claim C17 as stated fails on what reaches the destination.  In
`shortComFile` (entry point 0000:0100, `S = 512`) the source holds 128 image
bytes; the conversion returns 4 and writes 256 bytes, all of them fresh memory
from buffer offset `0x100` on, none an image byte that was read.  In
`shortRelocFile` (`S = 34`, one relocation at `0x10`, `relseg = 0x1000`) the
source holds 20 image bytes; the conversion returns 4 and writes 34 bytes whose
first 20 are not the bytes read: the word at `0x10` was relocated. -/
theorem doit_short_image_counterexample :
    (readMZ false shortComFile = some shortComMZ ∧ ValidHeader false shortComMZ ∧
      shortComFile.length - imageStart false shortComMZ = 128 ∧
      derivedSize false shortComMZ = 512 ∧
      doit (plainEnv false shortComFile (-1)) =
        .ret 4 [.shortRead] (some (List.replicate 256 0xAA)) ∧
      (List.replicate 256 (0xAA : Byte)).take 128 ≠
        shortComFile.drop (imageStart false shortComMZ)) ∧
    (readMZ false shortRelocFile = some shortRelocMZ ∧ ValidHeader false shortRelocMZ ∧
      shortRelocFile.length - imageStart false shortRelocMZ = 20 ∧
      derivedSize false shortRelocMZ = 34 ∧
      doit (plainEnv false shortRelocFile 0x1000) =
        .ret 4 [.shortRead]
          (some (List.replicate 16 0x90 ++ [0x00, 0x12, 0x90, 0x90] ++ List.replicate 14 0xAA)) ∧
      (List.replicate 16 (0x90 : Byte) ++ [0x00, 0x12, 0x90, 0x90] ++
          List.replicate 14 0xAA).take 20 ≠
        shortRelocFile.drop (imageStart false shortRelocMZ)) := by
  decide

/-- Claim C17, amended.  For a valid header that passed the start address test
and whose relocation stage ended with the pointer `rl`, the buffers being
allocated, whose source holds fewer than `S` bytes from byte `hdrlen*16` on,
with `S ≥ 0x100` when the entry point is 0000:0100 and every entry of a loaded
table addressing a window inside the `S`-byte buffer: `doit` does not stop at
the short read.  The buffer `buf` of `S` bytes starts with the bytes that were
read; `out` is `buf` itself without a table and `buf` after the relocation
loop with one; the `S - skip` bytes of `out` from offset `skip` on, where
`skip` is `0x100` for entry point 0000:0100 and 0 otherwise, are handed to the
write; without a table they start with the bytes read from image offset `skip`
on.  The return value is 3 when the destination does not open, 8 when the
write is cut short, and 4 exactly in the remaining case. -/
theorem doit_short_image (env : Env) (f : List Byte) (mz : MZ) (rl : Option (List RL))
    (hsrc : env.srcFile = some f) (hmz : readMZ env.bigEndian f = some mz)
    (hvalid : ValidHeader env.bigEndian mz)
    (hip : endianize env.bigEndian mz.ip = 0 ∨ endianize env.bigEndian mz.ip = 0x0100)
    (hmem : env.mallocOk (derivedSize env.bigEndian mz).toNat = true)
    (hload : loadRelocs env f mz = .ok rl)
    (hshort : f.length - imageStart env.bigEndian mz < (derivedSize env.bigEndian mz).toNat)
    (hcom : endianize env.bigEndian mz.ip = 0x0100 → 0x0100 ≤ derivedSize env.bigEndian mz)
    (hin : ∀ tbl, rl = some tbl → ∀ x ∈ tbl,
      linearPos env.bigEndian x + 1 < (derivedSize env.bigEndian mz).toNat) :
    ∃ buf out : List Byte,
      buf.length = (derivedSize env.bigEndian mz).toNat ∧
      buf.take (f.length - imageStart env.bigEndian mz) = f.drop (imageStart env.bigEndian mz) ∧
      (rl = none → out = buf) ∧
      (∀ tbl, rl = some tbl → applyRelocs env.bigEndian env.relseg tbl buf = some out) ∧
      (out.drop (overlaySkip env.bigEndian mz)).length =
        (derivedSize env.bigEndian mz).toNat - overlaySkip env.bigEndian mz ∧
      (rl = none →
        (out.drop (overlaySkip env.bigEndian mz)).take
            (f.length - imageStart env.bigEndian mz - overlaySkip env.bigEndian mz) =
          f.drop (imageStart env.bigEndian mz + overlaySkip env.bigEndian mz)) ∧
      (env.tgtOpens = false → doit env = .ret 3 [.shortRead, .openTgt] none) ∧
      (env.tgtOpens = true →
        env.tgtRoom < (derivedSize env.bigEndian mz).toNat - overlaySkip env.bigEndian mz →
        doit env = .ret 8 [.shortRead, .shortWrite]
          (some ((out.drop (overlaySkip env.bigEndian mz)).take env.tgtRoom))) ∧
      (env.tgtOpens = true →
        (derivedSize env.bigEndian mz).toNat - overlaySkip env.bigEndian mz ≤ env.tgtRoom →
        doit env = .ret 4 [.shortRead] (some (out.drop (overlaySkip env.bigEndian mz)))) ∧
      ((∃ msgs dst, doit env = .ret 4 msgs dst) ↔
        (env.tgtOpens = true ∧
          (derivedSize env.bigEndian mz).toNat - overlaySkip env.bigEndian mz ≤ env.tgtRoom)) := by
  have hS1 : (derivedSize env.bigEndian mz).toNat ≤ 0xFFFF := by
    have := hvalid.2.2.1
    omega
  have hd : doit env = convert env f mz (derivedSize env.bigEndian mz).toNat rl := by
    rw [doit_of_header env f mz hsrc hmz, afterHeader_of_valid env f mz hmz hvalid hip hmem]
    unfold relocateAndWrite
    rw [hload]
  have hskip : (if decide (endianize env.bigEndian mz.ip = 0x0100) = true then 0x0100 else 0) =
      overlaySkip env.bigEndian mz := by
    simp only [overlaySkip, decide_eq_true_eq]
  have hcom1 : decide (endianize env.bigEndian mz.ip = 0x0100) = true →
      0x0100 ≤ (derivedSize env.bigEndian mz).toNat := by
    intro h
    have := hcom (of_decide_eq_true h)
    omega
  generalize (derivedSize env.bigEndian mz).toNat = s at *
  obtain ⟨htake, hgot⟩ := loadImage_short env f mz s hshort
  have hbl := loadImage_length env f mz s
  -- the buffer handed to the write
  have hout : ∃ out : List Byte, out.length = s ∧
      (rl = none → out = loadImage env f mz s) ∧
      (∀ tbl, rl = some tbl →
        applyRelocs env.bigEndian env.relseg tbl (loadImage env f mz s) = some out) ∧
      doit env = writeOut env (decide (endianize env.bigEndian mz.ip = 0x0100)) s 4
        [.shortRead] out := by
    cases rl with
    | none =>
      refine ⟨loadImage env f mz s, hbl, fun _ => rfl, ?_, ?_⟩
      · intro tbl h
        exact absurd h (by simp)
      · rw [hd]
        unfold convert
        simp only [hgot, hshort, if_true]
    | some tbl =>
      obtain ⟨out, h1, h2, -⟩ := applyRelocs_frame env.bigEndian env.relseg tbl
        (loadImage env f mz s)
        (fun x hx => by rw [relocOffset_eq, hbl]; exact hin tbl rfl x hx)
      refine ⟨out, by rw [h2, hbl], ?_, ?_, ?_⟩
      · intro h
        exact absurd h (by simp)
      · intro t ht
        injection ht with ht
        subst ht
        exact h1
      · rw [hd]
        unfold convert
        simp only [hgot, hshort, if_true, h1]
  obtain ⟨out, hol, hnone, hsome, hdo⟩ := hout
  rw [writeOut_eq env _ s 4 [.shortRead] out hol hS1 hcom1, hskip] at hdo
  have hdl : (out.drop (overlaySkip env.bigEndian mz)).length =
      s - overlaySkip env.bigEndian mz := by
    rw [List.length_drop, hol]
  refine ⟨loadImage env f mz s, out, hbl, htake, hnone, hsome, hdl, ?_, ?_, ?_, ?_, ?_⟩
  · intro hn
    rw [hnone hn, ← List.drop_take, htake, List.drop_drop, Nat.add_comm]
  · intro ho
    rw [hdo]
    simp only [ho, if_true, List.singleton_append]
  · intro ho hr
    rw [hdo]
    simp only [ho, Bool.true_eq_false, if_false, hr, if_true, List.singleton_append]
  · intro ho hr
    rw [hdo]
    simp only [ho, Bool.true_eq_false, if_false, Nat.not_lt.mpr hr]
  · rw [hdo]
    by_cases ho : env.tgtOpens = true
    · by_cases hr : env.tgtRoom < s - overlaySkip env.bigEndian mz
      · simp only [ho, Bool.true_eq_false, if_false, hr, if_true, true_and]
        constructor
        · rintro ⟨m, d, h⟩
          simp at h
        · intro h; omega
      · simp only [ho, Bool.true_eq_false, if_false, hr, true_and]
        constructor
        · intro _; omega
        · intro _; exact ⟨_, _, rfl⟩
    · have hf : env.tgtOpens = false := by simpa using ho
      simp only [hf, if_true, Bool.false_eq_true, false_and, iff_false]
      rintro ⟨m, d, h⟩
      simp at h

set_option maxRecDepth 100000 in
/-- Witness of `doit_short_image`: `shortRelocFile`, whose table of one entry is
loaded and whose image is 14 bytes short, ends with the return value 4. -/
theorem doit_short_image_witness :
    ∃ msgs dst, doit (plainEnv false shortRelocFile 0x1000) = .ret 4 msgs dst := by
  obtain ⟨buf, out, -, -, -, -, -, -, -, -, -, h⟩ :=
    doit_short_image (plainEnv false shortRelocFile 0x1000) shortRelocFile shortRelocMZ
      (some [{ off := 0x10, seg := 0 }]) rfl (by decide) (by decide) (by decide) rfl
      rfl (by decide) (by decide)
      (fun tbl h x hx => by
        injection h with h
        subst h
        revert x hx
        decide)
  exact h.mpr ⟨rfl, by decide⟩

/-! ## C18: the 32-bit size -/

/-- Claim C18.  On either host byte order and for 16-bit header fields, the
`uint32_t` value `s` of lines 166 to 170 is the integer
`pageCount*512 - (bytesOnLastPage ? 512 - bytesOnLastPage : 0) - headerSizeParagraphs*16`
reduced modulo `2^32`, and is that integer itself when it lies in
`0 .. 0xFFFF`. -/
theorem imageSize_spec (be : Bool) (mz : MZ) (hxb : mz.xbytes < 65536) :
    ((imageSize be mz : Nat) : Int) = derivedSize be mz % 2 ^ 32 ∧
    (0 ≤ derivedSize be mz → derivedSize be mz ≤ 0xFFFF →
      ((imageSize be mz : Nat) : Int) = derivedSize be mz) := by
  have h := imageSize_emod be mz hxb
  unfold derivedSize
  refine ⟨by rw [h]; rfl, ?_⟩
  intro h0 h1
  have h2 := imageSize_eq_toNat be mz hxb h0 h1
  omega

/-- Witness of `imageSize_spec`: one page with 16 bytes on it and a header of
64 paragraphs on a big-endian host, `S = -1008`, and the header of scenario 1. -/
theorem imageSize_spec_witness :
    ((imageSize true { scenario1MZ with xbytes := 0x1000, fullpages := 0x0100, hdrlen := 0x4000 }
      : Nat) : Int) = (-1008) % 2 ^ 32 ∧
    ((imageSize false scenario1MZ : Nat) : Int) = 992 :=
  ⟨(imageSize_spec true { scenario1MZ with xbytes := 0x1000, fullpages := 0x0100, hdrlen := 0x4000 }
      (by decide)).1,
   (imageSize_spec false scenario1MZ (by decide)).2 (by decide) (by decide)⟩

/-! ## C19: what the relocation loop leaves alone -/

theorem patch_getElem?_of_ne (be : Bool) (relseg : Int) (buf : List Byte) (ro i : Nat)
    (h0 : i ≠ ro) (h1 : i ≠ ro + 1) :
    (patch be relseg buf ro)[i]? = buf[i]? := by
  rw [patch_eq_patchLE]
  simp only [patchLE]
  rw [List.getElem?_set_ne (Ne.symm h1), List.getElem?_set_ne (Ne.symm h0)]

theorem set_getElem_same (l : List Byte) (i : Nat) (h : i < l.length) :
    l.set i l[i] = l := by
  induction l generalizing i with
  | nil => simp at h
  | cons a t ih =>
    cases i with
    | zero => rfl
    | succ j =>
      simp only [List.set_cons_succ, List.getElem_cons_succ, List.cons.injEq, true_and]
      exact ih j (by simpa using h)

theorem patch_of_multiple (be : Bool) (relseg : Int) (buf : List Byte) (ro : Nat)
    (hr : relseg % 65536 = 0) (h : ro + 1 < buf.length) :
    patch be relseg buf ro = buf := by
  rw [patch_eq_patchLE, patchLE_def]
  have hw := word16At_lt buf ro
  have e : ((((word16At buf ro : Nat) : Int) + relseg) % 65536).toNat = word16At buf ro := by
    omega
  rw [e]
  have g0 : buf.getD ro 0 = buf[ro] := by
    rw [List.getD_eq_getElem?_getD, List.getElem?_eq_getElem (by omega)]; rfl
  have g1 : buf.getD (ro + 1) 0 = buf[ro + 1] := by
    rw [List.getD_eq_getElem?_getD, List.getElem?_eq_getElem h]; rfl
  have b0 : (Fin.ofNat (word16At buf ro % 256) : Byte) = buf[ro] := by
    apply Fin.ext
    have := (buf[ro]).isLt
    have := (buf[ro + 1]).isLt
    simp only [word16At, g0, g1, Fin.ofNat, Nat.succ_eq_add_one]
    omega
  have b1 : (Fin.ofNat (word16At buf ro / 256 % 256) : Byte) = buf[ro + 1] := by
    apply Fin.ext
    have := (buf[ro]).isLt
    have := (buf[ro + 1]).isLt
    simp only [word16At, g0, g1, Fin.ofNat, Nat.succ_eq_add_one]
    omega
  rw [b0, b1, set_getElem_same buf ro (by omega), set_getElem_same buf (ro + 1) h]

/-- Claim C19.  For every image, every `relseg` and every table whose entries
all address 2-byte windows inside the image, the relocation loop runs to its
end, leaves the length of the image and every byte outside the windows of the
entries unchanged, and leaves the whole image unchanged when `relseg` is a
multiple of 65536. -/
theorem applyRelocs_unchanged (be : Bool) (relseg : Int) (tbl : List RL) (buf : List Byte)
    (hin : ∀ x ∈ tbl, linearPos be x + 1 < buf.length) :
    ∃ out, applyRelocs be relseg tbl buf = some out ∧ out.length = buf.length ∧
      (∀ i, (∀ x ∈ tbl, i ≠ linearPos be x ∧ i ≠ linearPos be x + 1) → out[i]? = buf[i]?) ∧
      (relseg % 65536 = 0 → out = buf) := by
  induction tbl generalizing buf with
  | nil => exact ⟨buf, rfl, rfl, fun _ _ => rfl, fun _ => rfl⟩
  | cons e rest ih =>
    have he : relocOffset be e + 1 < buf.length := by
      rw [relocOffset_eq]; exact hin e (List.mem_cons_self _ _)
    obtain ⟨out, h1, h2, h3, h4⟩ := ih (patch be relseg buf (relocOffset be e))
      (fun x hx => by rw [patch_length]; exact hin x (List.mem_cons_of_mem _ hx))
    refine ⟨out, ?_, ?_, ?_, ?_⟩
    · simp only [applyRelocs, he, if_true, h1]
    · rw [h2, patch_length]
    · intro i hi
      rw [h3 i (fun x hx => hi x (List.mem_cons_of_mem _ hx))]
      have := hi e (List.mem_cons_self _ _)
      rw [← relocOffset_eq] at this
      exact patch_getElem?_of_ne be relseg buf _ i this.1 this.2
    · intro hr
      rw [h4 hr, patch_of_multiple be relseg buf _ hr he]

/-- Witness of `applyRelocs_unchanged`: two entries on a six-byte image on a
big-endian host, and the same table with `relseg = 0x20000`. -/
theorem applyRelocs_unchanged_witness :
    (∃ out, applyRelocs true 0x1234 [{ off := 0x0100, seg := 0 }, { off := 0x0400, seg := 0 }]
        [1, 2, 3, 4, 5, 6] = some out ∧ out.length = 6 ∧ out[0]? = some 1 ∧ out[3]? = some 4) ∧
    applyRelocs true 0x20000 [{ off := 0x0100, seg := 0 }, { off := 0x0400, seg := 0 }]
        [1, 2, 3, 4, 5, 6] = some [1, 2, 3, 4, 5, 6] := by
  obtain ⟨out, h1, h2, h3, -⟩ := applyRelocs_unchanged true 0x1234
    [{ off := 0x0100, seg := 0 }, { off := 0x0400, seg := 0 }] [1, 2, 3, 4, 5, 6] (by decide)
  obtain ⟨out2, k1, -, -, k4⟩ := applyRelocs_unchanged true 0x20000
    [{ off := 0x0100, seg := 0 }, { off := 0x0400, seg := 0 }] [1, 2, 3, 4, 5, 6] (by decide)
  refine ⟨⟨out, h1, h2, ?_, ?_⟩, ?_⟩
  · rw [h3 0 (by decide)]; rfl
  · rw [h3 3 (by decide)]; rfl
  · rw [k1, k4 (by decide)]

end Exereloc
